import Mathlib

/-!
ctr-fetch: image cache, manifest validation and layer extraction

A shallow embedding of `pull.go` and `extract.go`.

* Go strings and byte slices are byte sequences (`GoString`).
* Go `error` values are `GoError`: a message, and for `%w` the wrapped cause.
* Library calls whose code is outside the repository (`json.Unmarshal`, the
  image-transfer library, gzip/tar decoding) are parameters of the functions that
  call them.
* The operating system is a map from resolved paths to nodes (`FS`), threaded
  through every function that touches the disk.
-/

set_option autoImplicit false

namespace CtrFetch

deriving instance DecidableEq for Except

/-! ## Strings -/

abbrev Byte := Fin 256

/-- Go `string` / `[]byte`: a sequence of bytes. -/
abbrev GoString := List Byte

/-- The bytes of an ASCII literal of the source. -/
def lit (s : String) : GoString :=
  s.toList.map (fun c => ⟨c.toNat % 256, Nat.mod_lt _ (by decide)⟩)

/-- Table `hextable = "0123456789abcdef"` of `encoding/hex`. -/
def hextable : GoString := lit "0123456789abcdef"

/-- Lower-case hexadecimal digit of a value below 16. -/
def hexDigit (n : Nat) : Byte := hextable.getD n 0

/-- The function `hex.Encode` on one byte: `hextable[v>>4]`, `hextable[v&0x0f]`. -/
def hexByte (b : Byte) : GoString := [hexDigit (b.val / 16), hexDigit (b.val % 16)]

/-- The function `hex.EncodeToString(src)`. -/
def hexEncodeToString : GoString → GoString
  | [] => []
  | b :: rest => hexByte b ++ hexEncodeToString rest

/-- The function `strings.HasPrefix(s, prefix)`. -/
def hasPrefix (s pre : GoString) : Bool := pre.isPrefixOf s

/-- The function `strings.TrimPrefix(s, prefix)`. -/
def trimPrefix (s pre : GoString) : GoString :=
  if hasPrefix s pre then s.drop pre.length else s

/-! ## Errors and formatting -/

/-- A Go `error`: `leaf` carries a message only (`errors.New`, or `fmt.Errorf` with `%v`),
`wrap` also keeps the cause (`fmt.Errorf` with `%w`). -/
inductive GoError where
  | leaf (msg : GoString)
  | wrap (msg : GoString) (cause : GoError)
  deriving DecidableEq, Repr

/-- The method `err.Error()`. -/
def GoError.Error : GoError → GoString
  | .leaf msg => msg
  | .wrap msg _ => msg

/-- The chain `err, Unwrap(err), Unwrap(Unwrap(err)), ...` that `errors.Is` walks. -/
def GoError.chain : GoError → List GoError
  | .leaf msg => [.leaf msg]
  | .wrap msg cause => .wrap msg cause :: cause.chain

/-- The function `errors.Is(err, target)` for comparable errors. -/
def GoError.Is (err target : GoError) : Bool := decide (target ∈ err.chain)

/-- Verb `%d` on an integer. -/
def fmtD (n : Int) : GoString :=
  match n with
  | .ofNat k => lit (String.mk (Nat.toDigits 10 k))
  | .negSucc k => lit "-" ++ lit (String.mk (Nat.toDigits 10 (k + 1)))

/-- The escape `\xhh`. -/
def escX (n : Nat) : GoString := lit "\\x" ++ [hexDigit (n / 16 % 16), hexDigit (n % 16)]

/-- Escaping of one byte inside a literal delimited by `q`, as `strconv` does for ASCII:
the delimiter and the backslash get a backslash, printable ASCII stands for itself, the
control characters with a short form use it, everything else is `\xhh` (which is also
what Go writes for a byte that is not valid UTF-8; a valid multi-byte rune is not
modelled and comes out byte by byte in the same form). -/
def escapeByte (q : Byte) (b : Byte) : GoString :=
  if b = q ∨ b = 92 then [92, b]
  else if 32 ≤ b.val ∧ b.val < 127 then [b]
  else if b = 7 then lit "\\a"
  else if b = 8 then lit "\\b"
  else if b = 12 then lit "\\f"
  else if b = 10 then lit "\\n"
  else if b = 13 then lit "\\r"
  else if b = 9 then lit "\\t"
  else if b = 11 then lit "\\v"
  else escX b.val

/-- Verb `%q` on a string: `strconv.Quote`. -/
def quote (s : GoString) : GoString :=
  [34] ++ (s.map (escapeByte 34)).flatten ++ [34]

/-- Verb `%q` on an integer: a single-quoted character literal (`strconv.QuoteRune`) for
a code point, `%!q(int=n)` outside the code-point range. Code points from 128 on are
written escaped (`\u` followed by the hexadecimal value), whether Go would print them or not. -/
def quoteRune (n : Int) : GoString :=
  if n < 0 ∨ 1114111 < n then lit "%!q(int=" ++ fmtD n ++ lit ")"
  else if h : n.toNat < 128 then
    [39] ++ escapeByte 39 ⟨n.toNat, Nat.lt_trans h (by decide)⟩ ++ [39]
  else [39] ++ lit "\\u" ++ lit (String.mk (Nat.toDigits 16 n.toNat)) ++ [39]

/-! ## Manifest (`pull.go`) -/

def DockerV2SchemaVersion : Int := 2

def DockerV2Schema2MediaType : GoString :=
  lit "application/vnd.docker.distribution.manifest.v2+json"

def DockerV2Schema2LayerMediaType : GoString :=
  lit "application/vnd.docker.image.rootfs.diff.tar.gzip"

def SHA256Prefix : GoString := lit "sha256:"

structure Layer where
  MediaType : GoString
  Size : Int
  Digest : GoString
  deriving DecidableEq, Repr

structure Manifest where
  SchemaVersion : Int
  MediaType : GoString
  Layers : List Layer
  deriving DecidableEq, Repr

/-- The parameter `json.Unmarshal(data, &m)` on a zero `Manifest`: the decoded value or
the decoder's error. -/
abbrev Unmarshal := GoString → Except GoError Manifest

/-- Error of `parseManifest` when the bytes do not decode. -/
def errInvalidFormat (data : GoString) (err : GoError) : GoError :=
  .leaf (lit "Invalid manifest format " ++ quote data ++ lit ": " ++ err.Error)

/-- Error of `parseManifest` for a wrong schema version. -/
def errSchemaVersion (m : Manifest) : GoError :=
  .leaf (lit "Unsupport manifest schema version: " ++ fmtD m.SchemaVersion
    ++ lit ", expect " ++ fmtD DockerV2SchemaVersion)

/-- Error of `parseManifest` for a wrong media type; the first argument of the format
is `m.SchemaVersion`, as in the source. -/
def errSchema (m : Manifest) : GoError :=
  .leaf (lit "Unsupport manifest schema: " ++ quoteRune m.SchemaVersion
    ++ lit ", expect " ++ quote DockerV2Schema2MediaType)

/-- Error of `parseManifest` for a layer with a wrong media type. -/
def errLayerSchema (layer : Layer) : GoError :=
  .leaf (lit "Unsupport layer schema: " ++ quote layer.MediaType
    ++ lit ", expect " ++ quote DockerV2Schema2LayerMediaType)

/-- Error of `parseManifest` for a layer whose digest lacks the prefix. -/
def errLayerDigest (layer : Layer) : GoError :=
  .leaf (lit "Unsupport layer digest " ++ quote layer.Digest ++ lit ", expect sha256")

/-- The loop `for _, layer := range m.Layers` of `parseManifest`. -/
def checkLayers : List Layer → Except GoError Unit
  | [] => .ok ()
  | layer :: rest =>
    if layer.MediaType ≠ DockerV2Schema2LayerMediaType then
      .error (errLayerSchema layer)
    else if !hasPrefix layer.Digest SHA256Prefix then
      .error (errLayerDigest layer)
    else checkLayers rest

/-- The function `parseManifest` of `pull.go`. -/
def parseManifest (unmarshal : Unmarshal) (data : GoString) : Except GoError Manifest :=
  match unmarshal data with
  | .error err => .error (errInvalidFormat data err)
  | .ok m =>
    if m.SchemaVersion ≠ DockerV2SchemaVersion then
      .error (errSchemaVersion m)
    else if m.MediaType ≠ DockerV2Schema2MediaType then
      .error (errSchema m)
    else
      match checkLayers m.Layers with
      | .error err => .error err
      | .ok _ => .ok m

/-- The conditions on one layer that `parseManifest` checks. -/
def Layer.Valid (layer : Layer) : Prop :=
  layer.MediaType = DockerV2Schema2LayerMediaType ∧ SHA256Prefix <+: layer.Digest

instance (layer : Layer) : Decidable layer.Valid := by
  unfold Layer.Valid; infer_instance

/-- The error the loop of `parseManifest` reports for a layer that is not valid. -/
def layerError (layer : Layer) : GoError :=
  if layer.MediaType ≠ DockerV2Schema2LayerMediaType then errLayerSchema layer
  else errLayerDigest layer

/-! ## Paths (`path/filepath` on Unix) -/

/-- The path separator, the byte 0x2f. -/
def Separator : Byte := 47

/-- The path element `.`. -/
def dot : GoString := [46]

/-- The path element `..`. -/
def dotdot : GoString := [46, 46]

/-- The function `strings.Split(p, "/")`: the elements between separators, empty ones included. -/
def splitSep : GoString → List GoString
  | [] => [[]]
  | c :: rest =>
    if c = Separator then [] :: splitSep rest
    else
      match splitSep rest with
      | [] => [[c]]
      | x :: xs => (c :: x) :: xs

/-- The function `strings.Join(elems, "/")`. -/
def joinSep : List GoString → GoString
  | [] => []
  | [x] => x
  | x :: y :: rest => x ++ Separator :: joinSep (y :: rest)

/-- One element of the path seen by `Clean`; `stack` holds the elements kept so far, the
last one first. Empty and `.` elements are dropped; `..` removes the last kept element
when that is not itself `..`, is dropped at the root of a rooted path, and is kept at
the start of a relative one; any other element is kept. -/
def cleanStep (rooted : Bool) (stack : List GoString) (c : GoString) : List GoString :=
  if c = [] ∨ c = dot then stack
  else if c = dotdot then
    match stack with
    | [] => if rooted then [] else [c]
    | top :: rest => if top = dotdot then (if rooted then stack else c :: stack) else rest
  else c :: stack

/-- The function `filepath.Clean(path)` on Unix, by the rules of its documentation applied element
by element. -/
def Clean (path : GoString) : GoString :=
  if path = [] then dot
  else
    let rooted := decide (path.head? = some Separator)
    let stack := (splitSep path).foldl (cleanStep rooted) []
    if rooted then Separator :: joinSep stack.reverse
    else if stack = [] then dot
    else joinSep stack.reverse

/-- The function `filepath.Join(a, b)` on Unix: the non-empty arguments joined by a separator and
cleaned, the empty string when all are empty. -/
def Join (a b : GoString) : GoString :=
  if a ≠ [] then Clean (a ++ Separator :: b)
  else if b ≠ [] then Clean b
  else []

/-- The function `path.Dir(p)`: `path.Split` keeps everything up to and including the last separator,
and that is cleaned. -/
def Dir (p : GoString) : GoString :=
  Clean (p.reverse.dropWhile (fun c => c ≠ Separator)).reverse

/-- A path element that `Clean` keeps as it is: non-empty, free of separators, and
neither `.` nor `..`. -/
def PlainElem (k : GoString) : Prop :=
  k ≠ [] ∧ Separator ∉ k ∧ k ≠ dot ∧ k ≠ dotdot

/-- The cleaned form of a path from the elements `Clean` keeps. -/
def render (rooted : Bool) (stack : List GoString) : GoString :=
  if rooted then Separator :: joinSep stack.reverse
  else if stack = [] then dot
  else joinSep stack.reverse

/-- The elements `Clean` keeps: none empty, none `.`, and none `..` in a rooted path. -/
def GoodStack (rooted : Bool) (st : List GoString) : Prop :=
  ∀ e ∈ st, e ≠ [] ∧ e ≠ dot ∧ (rooted = true → e ≠ dotdot) ∧ Separator ∉ e

/-! ## The filesystem

The disk is a map from a resolved path (the list of its elements from the root) to the
node there. Every operation resolves the path string it is given and walks the
directories above the target, so a state needs no well-formedness condition: a node
below a missing directory is unreachable. Symbolic links, devices, permission bits and
I/O failures are not part of the model: an operation fails only for a missing node, a
non-directory on the way, or a directory where a file is needed. -/

/-- A resolved path: its elements, from the root. -/
abbrev Path := List GoString

inductive Node where
  | dir
  | file (mode : Nat) (content : GoString)
  deriving DecidableEq, Repr

abbrev FS := Path → Option Node

inductive Errno where
  | ENOENT
  | ENOTDIR
  | EISDIR
  deriving DecidableEq, Repr

/-- The text of an `Errno`. -/
def Errno.msg : Errno → GoString
  | .ENOENT => lit "no such file or directory"
  | .ENOTDIR => lit "not a directory"
  | .EISDIR => lit "is a directory"

/-- An `*fs.PathError`. -/
structure PathError where
  Op : GoString
  Path : GoString
  Err : Errno
  deriving DecidableEq, Repr

/-- A `PathError` as an `error`: the message `op path: text`, unwrapping to the `Errno`. -/
def PathError.toError (e : PathError) : GoError :=
  .wrap (e.Op ++ lit " " ++ e.Path ++ lit ": " ++ e.Err.msg) (.leaf e.Err.msg)

/-- The function `os.IsNotExist(err)`. -/
def IsNotExist (e : PathError) : Bool := decide (e.Err = .ENOENT)

/-- The node at a resolved path; the root is always a directory. -/
def FS.get (fs : FS) (p : Path) : Option Node :=
  if p = [] then some .dir else fs p

/-- The state with node `n` at `p`. -/
def FS.set (fs : FS) (p : Path) (n : Node) : FS :=
  fun q => if q = p then some n else fs q

/-- What the process sees of its environment: the working directory, against which
relative paths resolve, and the value of `os.TempDir()`. -/
structure Env where
  cwd : Path
  TempDir : GoString

/-- One element in the resolution of a path: empty and `.` elements stay, `..` goes to
the parent (the root is its own parent), a name goes down. -/
def resolveStep (acc : Path) (c : GoString) : Path :=
  if c = [] ∨ c = dot then acc
  else if c = dotdot then acc.dropLast
  else acc ++ [c]

/-- The resolved path of a path string: from the root when it starts with a separator,
from the working directory otherwise. -/
def resolve (env : Env) (name : GoString) : Path :=
  (splitSep name).foldl resolveStep
    (if name.head? = some Separator then [] else env.cwd)

/-- Walk from `acc` down the elements `rest`: every node on the way has to be a
directory. -/
def FS.lookupFrom (fs : FS) : Path → List GoString → Except Errno Node
  | acc, [] =>
    match fs.get acc with
    | some n => .ok n
    | none => .error .ENOENT
  | acc, c :: rest =>
    match fs.get acc with
    | some .dir => FS.lookupFrom fs (acc ++ [c]) rest
    | some (.file _ _) => .error .ENOTDIR
    | none => .error .ENOENT

/-- The node a resolved path leads to. -/
def FS.lookup (fs : FS) (p : Path) : Except Errno Node := fs.lookupFrom [] p

/-- The function `os.Stat(name)`; the `FileInfo` is the node. -/
def osStat (env : Env) (fs : FS) (name : GoString) : Except PathError Node :=
  match fs.lookup (resolve env name) with
  | .ok n => .ok n
  | .error e => .error ⟨lit "stat", name, e⟩

/-- The method `FileInfo.IsDir()`. -/
def Node.IsDir : Node → Bool
  | .dir => true
  | .file _ _ => false

/-- The function `os.ReadFile(name)`: the content of a file; reading a directory fails. -/
def osReadFile (env : Env) (fs : FS) (name : GoString) : Except PathError GoString :=
  match fs.lookup (resolve env name) with
  | .ok (.file _ content) => .ok content
  | .ok .dir => .error ⟨lit "read", name, .EISDIR⟩
  | .error e => .error ⟨lit "open", name, e⟩

/-- Walk from `acc` down `rest`, creating each directory that is missing; a file on the
way is an error. -/
def FS.mkdirAllFrom (fs : FS) : Path → List GoString → Except Errno FS
  | _, [] => .ok fs
  | acc, c :: rest =>
    match fs.get (acc ++ [c]) with
    | none => FS.mkdirAllFrom (fs.set (acc ++ [c]) .dir) (acc ++ [c]) rest
    | some .dir => FS.mkdirAllFrom fs (acc ++ [c]) rest
    | some (.file _ _) => .error .ENOTDIR

/-- The function `os.MkdirAll(path, perm)`. -/
def osMkdirAll (env : Env) (fs : FS) (path : GoString) : Except PathError FS :=
  match fs.mkdirAllFrom [] (resolve env path) with
  | .ok fs1 => .ok fs1
  | .error e => .error ⟨lit "mkdir", path, e⟩

/-- The function `os.OpenFile(name, os.O_CREATE|os.O_RDWR, perm)`: an existing file is opened as it
is, a missing one is created empty with mode `perm`; the result is the resolved path of
the open file and the new state. -/
def osOpenFileCreateRdwr (env : Env) (fs : FS) (name : GoString) (perm : Nat) :
    Except PathError (Path × FS) :=
  match fs.lookup (resolve env name) with
  | .ok (.file _ _) => .ok (resolve env name, fs)
  | .ok .dir => .error ⟨lit "open", name, .EISDIR⟩
  | .error .ENOENT =>
    match fs.lookup (resolve env name).dropLast with
    | .ok .dir => .ok (resolve env name, fs.set (resolve env name) (.file perm []))
    | .ok (.file _ _) => .error ⟨lit "open", name, .ENOTDIR⟩
    | .error e => .error ⟨lit "open", name, e⟩
  | .error e => .error ⟨lit "open", name, e⟩

/-- Writing `data` from offset 0 to the open file at `p`: the bytes of the file beyond
the length of `data` stay. -/
def FS.write (fs : FS) (p : Path) (data : GoString) : FS :=
  match fs p with
  | some (.file mode old) => fs.set p (.file mode (data ++ old.drop data.length))
  | _ => fs

/-! ## Cache directory and pull (`pull.go`) -/

/-- The function `fmt.Errorf(prefix + ": %w", err)`. -/
def wrapf (pre : GoString) (err : GoError) : GoError :=
  .wrap (pre ++ lit ": " ++ err.Error) err

/-- The directory `getDestDir` works on: `Join(baseDir, hex(name))`, with
`Join(os.TempDir(), "ctr-fetch")` for an empty `baseDir`. -/
def destDirPath (env : Env) (name baseDir : GoString) : GoString :=
  Join (if baseDir = [] then Join env.TempDir (lit "ctr-fetch") else baseDir)
    (hexEncodeToString name)

/-- The function `getDestDir` of `pull.go`: the directory, whether it existed, and the
state of the disk afterwards. -/
def getDestDir (env : Env) (fs : FS) (name baseDir : GoString) :
    Except GoError (GoString × Bool) × FS :=
  let dir := destDirPath env name baseDir
  match osStat env fs dir with
  | .error err =>
    if IsNotExist err then
      match osMkdirAll env fs dir with
      | .error err2 => (.error (wrapf (lit "Mkdir for dest error") err2.toError), fs)
      | .ok fs1 => (.ok (dir, false), fs1)
    else (.error (wrapf (lit "Stat for dest error") err.toError), fs)
  | .ok stat =>
    if !stat.IsDir then
      (.error (.leaf (lit "Dest dir " ++ dir ++ lit " is not a directory")), fs)
    else (.ok (dir, true), fs)

structure PullOptions where
  Username : GoString
  Password : GoString
  Token : GoString
  Insecure : Bool
  InsecurePolicy : Bool
  BaseDir : GoString
  Force : Bool

structure PullResult where
  Path : GoString
  Manifest : Manifest
  deriving DecidableEq, Repr

/-- The fields of `types.SystemContext` that `PullImage` sets on the source side. -/
structure SystemContext where
  DockerAuthConfig : Option (GoString × GoString)
  DockerBearerRegistryToken : GoString
  DockerInsecureSkipTLSVerify : Bool
  deriving DecidableEq, Repr

/-- The policy handed to `signature.NewPolicyContext`. -/
inductive Policy where
  | insecureAcceptAnything
  | system
  deriving DecidableEq, Repr

/-- The arguments of one call of `copy.Image`. -/
structure CopyArgs where
  policy : Policy
  destName : GoString
  srcName : GoString
  SourceCtx : SystemContext
  deriving DecidableEq, Repr

/-- The image-transfer library (`github.com/containers/image/v5`), a parameter:
`ParseImageName` accepts or rejects a transport-qualified name, `DefaultPolicy` and
`NewPolicyContext` may fail, and `copyImage` is `copy.Image`, which works on the disk and
returns manifest bytes together with an error value, as the Go function does. -/
structure Transfer where
  ParseImageName : GoString → Option GoError
  DefaultPolicy : Option GoError
  NewPolicyContext : Policy → Option GoError
  copyImage : FS → CopyArgs → (GoString × Option GoError) × FS

/-- What a run of `PullImage` leaves: its return value, the disk, and the calls of
`copy.Image` it made, in order. -/
structure PullOutcome where
  result : Except GoError PullResult
  fs : FS
  transfers : List CopyArgs

/-- Lines 118 to 177 of `PullImage`: the references, the contexts, the policy, the call
of `copy.Image` and the validation of the bytes it returned. The error value of
`copy.Image` is assigned to `err` and overwritten by the next statement, the call of
`parseManifest`, without having been read. -/
def pullTransfer (tr : Transfer) (unmarshal : Unmarshal) (fs : FS) (name : GoString)
    (opts : PullOptions) (destDir : GoString) : PullOutcome :=
  match tr.ParseImageName (lit "dir:" ++ destDir) with
  | some err =>
    ⟨.error (.leaf (lit "Invalid dir " ++ destDir ++ lit ": " ++ err.Error)), fs, []⟩
  | none =>
    match tr.ParseImageName (lit "docker://" ++ name) with
    | some err => ⟨.error (wrapf (lit "Invalid image name " ++ name) err), fs, []⟩
    | none =>
      let srcCtx : SystemContext :=
        { DockerAuthConfig :=
            if opts.Username ≠ [] ∧ opts.Password ≠ [] then
              some (opts.Username, opts.Password)
            else none
          DockerBearerRegistryToken := opts.Token
          DockerInsecureSkipTLSVerify := opts.Insecure }
      let policy : Policy := if opts.InsecurePolicy then .insecureAcceptAnything else .system
      match (if opts.InsecurePolicy then none else tr.DefaultPolicy) with
      | some err => ⟨.error (wrapf (lit "Create pull policy error") err), fs, []⟩
      | none =>
        match tr.NewPolicyContext policy with
        | some err => ⟨.error (wrapf (lit "Load trusted policy error") err), fs, []⟩
        | none =>
          let args : CopyArgs :=
            ⟨policy, lit "dir:" ++ destDir, lit "docker://" ++ name, srcCtx⟩
          match tr.copyImage fs args with
          | ((manifestData, _), fs1) =>
            match parseManifest unmarshal manifestData with
            | .error err => ⟨.error err, fs1, [args]⟩
            | .ok manifest => ⟨.ok ⟨destDir, manifest⟩, fs1, [args]⟩

/-- The function `PullImage` of `pull.go`. -/
def PullImage (env : Env) (tr : Transfer) (unmarshal : Unmarshal) (fs : FS)
    (name : GoString) (opts : PullOptions) : PullOutcome :=
  match getDestDir env fs name opts.BaseDir with
  | (.error err, fs1) => ⟨.error (wrapf (lit "Get base dir error") err), fs1, []⟩
  | (.ok (destDir, exists'), fs1) =>
    if exists' && !opts.Force then
      let manifestPath := Join destDir (lit "manifest.json")
      match osStat env fs1 manifestPath with
      | .ok _ =>
        match osReadFile env fs1 manifestPath with
        | .error err =>
          ⟨.error (.leaf (lit "Read manifest file " ++ manifestPath ++ lit ": "
            ++ err.toError.Error)), fs1, []⟩
        | .ok data =>
          match parseManifest unmarshal data with
          | .error err => ⟨.error err, fs1, []⟩
          | .ok manifest => ⟨.ok ⟨destDir, manifest⟩, fs1, []⟩
      | .error _ => pullTransfer tr unmarshal fs1 name opts destDir
    else pullTransfer tr unmarshal fs1 name opts destDir

/-! ## Extraction (`extract.go`) -/

/-- The constant `tar.TypeReg`, the byte `'0'`. -/
def TypeReg : Byte := 48

/-- The fields of `tar.Header` that `extract` reads. -/
structure Header where
  Name : GoString
  Typeflag : Byte
  Mode : Int
  deriving DecidableEq, Repr

/-- What `tar.Reader` yields: `eof` when `Next` returns `io.EOF`, `fail` when it returns
another error, `entry` when it returns a header; `content` is what reading the body of
the entry yields, up to its end or up to the error `readErr`. -/
inductive TarStream where
  | eof
  | fail (err : GoError)
  | entry (hdr : Header) (content : GoString) (readErr : Option GoError) (rest : TarStream)

/-- The parameter `gzip.NewReader` followed by `tar.NewReader` on the bytes of a file:
the error of `gzip.NewReader`, or the stream of entries. -/
abbrev Decode := GoString → Except GoError TarStream

/-- A well-formed archive: the entries, each with its whole content, then `io.EOF`. -/
def TarStream.ofList : List (Header × GoString) → TarStream
  | [] => .eof
  | (hdr, content) :: rest => .entry hdr content none (TarStream.ofList rest)

/-- The function `ensureDir` of `extract.go`: the error it returns, if any, and the disk
afterwards. -/
def ensureDir (env : Env) (fs : FS) (filepath : GoString) : Option GoError × FS :=
  let dir := Dir filepath
  match osStat env fs dir with
  | .error err =>
    if IsNotExist err then
      match osMkdirAll env fs dir with
      | .error err2 => (some err2.toError, fs)
      | .ok fs1 => (none, fs1)
    else (some err.toError, fs)
  | .ok stat =>
    if !stat.IsDir then
      (some (.leaf (lit "Path " ++ dir ++ lit " is not a directory")), fs)
    else (none, fs)

/-- The conversion `os.FileMode(hdr.Mode)` from `int64` to `uint32`. -/
def fileMode (mode : Int) : Nat := (mode % 2 ^ 32).toNat

/-- The body of `if hdr.Typeflag == tar.TypeReg` in `extract`: `ensureDir`, `OpenFile`
with `O_CREATE|O_RDWR`, `io.Copy` and `Close`. The result is the error `extract`
returns, if any, and the disk afterwards; the number of bytes copied is the length of
`content`. -/
def writeEntry (env : Env) (destPath : GoString) (hdr : Header) (content : GoString)
    (readErr : Option GoError) (fs : FS) : Option GoError × FS :=
  match ensureDir env fs destPath with
  | (some err, fs1) => (some (wrapf (lit "Ensure dir") err), fs1)
  | (none, fs1) =>
    match osOpenFileCreateRdwr env fs1 destPath (fileMode hdr.Mode) with
    | .error err => (some (wrapf (lit "Open file") err.toError), fs1)
    | .ok (p, fs2) =>
      match readErr with
      | some err => (some (wrapf (lit "Copy file") err), fs2.write p content)
      | none => (none, fs2.write p content)

/-- The loop `for { hdr, err := tr.Next() ... }` of `extract`, with the running `size`
(a `uint64`). -/
def extractLoop (env : Env) (dest : GoString) :
    TarStream → Nat → FS → (Nat × Option GoError) × FS
  | .eof, size, fs => ((size, none), fs)
  | .fail err, _, fs => ((0, some (wrapf (lit "Read gzip file") err)), fs)
  | .entry hdr content readErr rest, size, fs =>
    if hdr.Typeflag = TypeReg then
      match writeEntry env (Join dest hdr.Name) hdr content readErr fs with
      | (some err, fs1) => ((0, some err), fs1)
      | (none, fs1) => extractLoop env dest rest ((size + content.length) % 2 ^ 64) fs1
    else extractLoop env dest rest size fs

/-- The function `os.Open(name)`: the node opened for reading. -/
def osOpen (env : Env) (fs : FS) (name : GoString) : Except PathError Node :=
  match fs.lookup (resolve env name) with
  | .ok n => .ok n
  | .error e => .error ⟨lit "open", name, e⟩

/-- The function `extract` of `extract.go`: the pair it returns and the disk afterwards.
The first read of `gzip.NewReader` on an opened directory fails. -/
def extract (decode : Decode) (env : Env) (fs : FS) (src dest : GoString) :
    (Nat × Option GoError) × FS :=
  match osOpen env fs src with
  | .error err => ((0, some (wrapf (lit "Open src file") err.toError)), fs)
  | .ok .dir =>
    ((0, some (wrapf (lit "Open gzip file") (PathError.toError ⟨lit "read", src, .EISDIR⟩))), fs)
  | .ok (.file _ blob) =>
    match decode blob with
    | .error err => ((0, some (wrapf (lit "Open gzip file") err)), fs)
    | .ok stream => extractLoop env dest stream 0 fs

/-- The path of the blob of a layer: `Join(pullResult.Path, id)` with `id` the digest
without the prefix `sha256:`. -/
def blobPath (pullResult : PullResult) (layer : Layer) : GoString :=
  Join pullResult.Path (trimPrefix layer.Digest SHA256Prefix)

/-- What a run of `ExtractDirectory` leaves: the pair it returns, the disk, and the
source paths of the calls of `extract` it made, in order. -/
structure ExtractOutcome where
  size : Nat
  err : Option GoError
  fs : FS
  calls : List GoString

/-- The loop `for i, layer := range layers` of `ExtractDirectory`, with the running
`totalSize` (a `uint64`). The progress lines go to standard output, which is not
modelled. -/
def extractLayers (decode : Decode) (env : Env) (pullResult : PullResult) (destDir : GoString) :
    List Layer → Nat → FS → List GoString → ExtractOutcome
  | [], totalSize, fs, calls => ⟨totalSize, none, fs, calls⟩
  | layer :: rest, totalSize, fs, calls =>
    match extract decode env fs (blobPath pullResult layer) destDir with
    | ((_, some err), fs1) =>
      ⟨0, some (.leaf (lit "Extract " ++ quote (trimPrefix layer.Digest SHA256Prefix)
        ++ lit ": " ++ err.Error)), fs1, calls ++ [blobPath pullResult layer]⟩
    | ((size, none), fs1) =>
      extractLayers decode env pullResult destDir rest ((totalSize + size) % 2 ^ 64) fs1
        (calls ++ [blobPath pullResult layer])

/-- The function `ExtractDirectory` of `extract.go`. -/
def ExtractDirectory (decode : Decode) (env : Env) (fs : FS) (pullResult : PullResult)
    (destDir : GoString) : ExtractOutcome :=
  extractLayers decode env pullResult destDir pullResult.Manifest.Layers 0 fs []

/-- The extraction of every layer in manifest order, each on the disk the one before
left, whether or not an earlier one failed: the layer, the pair `extract` returns and
the disk afterwards. -/
def layerRuns (decode : Decode) (env : Env) (pullResult : PullResult) (destDir : GoString) :
    FS → List Layer → List (Layer × (Nat × Option GoError) × FS)
  | _, [] => []
  | fs, layer :: rest =>
    (layer, extract decode env fs (blobPath pullResult layer) destDir)
      :: layerRuns decode env pullResult destDir
          (extract decode env fs (blobPath pullResult layer) destDir).2 rest

/-- The sum of the content lengths of the regular-file entries. -/
def regularBytes : List (Header × GoString) → Nat
  | [] => 0
  | (hdr, content) :: rest =>
    (if hdr.Typeflag = TypeReg then content.length else 0) + regularBytes rest

/-- No file at `p`: nothing there, or a directory. -/
def NotFile (fs : FS) (p : Path) : Prop :=
  ∀ mode content, fs.get p ≠ some (.file mode content)

/-! ## Concrete inputs for the examples -/

/-- A process at the root directory with `/tmp` as temporary directory. -/
def exEnv : Env := ⟨[], lit "/tmp"⟩

/-- A valid manifest with one layer. -/
def exManifest : Manifest :=
  ⟨2, DockerV2Schema2MediaType, [⟨DockerV2Schema2LayerMediaType, 2, lit "sha256:aa"⟩]⟩

/-- The JSON text of `exManifest`. -/
def exManifestJSON : GoString :=
  lit ("\x7b\"schemaVersion\":2,\"mediaType\":\"application/vnd.docker.distribution.manifest.v2+json\","
    ++ "\"layers\":[\x7b\"mediaType\":\"application/vnd.docker.image.rootfs.diff.tar.gzip\","
    ++ "\"size\":2,\"digest\":\"sha256:aa\"\x7d]\x7d")

/-- A decoder that knows the text of `exManifest` and rejects everything else the way
`json.Unmarshal` rejects the empty input. -/
def exUnmarshal : Unmarshal := fun data =>
  if data = exManifestJSON then .ok exManifest
  else .error (.leaf (lit "unexpected end of JSON input"))

/-- The error of a transfer that could not reach the registry. -/
def exTransferError : GoError := .leaf (lit "pinging container registry: connection refused")

/-- A transfer library whose `copy.Image` fails and returns no bytes. -/
def exFailingTransfer : Transfer :=
  { ParseImageName := fun _ => none
    DefaultPolicy := none
    NewPolicyContext := fun _ => none
    copyImage := fun fs _ => (([], some exTransferError), fs) }

/-- A transfer library whose `copy.Image` fails but returns the text of `exManifest`
next to the error. -/
def exFailingTransferWithBytes : Transfer :=
  { ParseImageName := fun _ => none
    DefaultPolicy := none
    NewPolicyContext := fun _ => none
    copyImage := fun fs _ => ((exManifestJSON, some exTransferError), fs) }

/-- A transfer library whose `copy.Image` writes `manifest.json` into the directory
`/c/61` and returns its bytes. -/
def exTransfer : Transfer :=
  { ParseImageName := fun _ => none
    DefaultPolicy := none
    NewPolicyContext := fun _ => none
    copyImage := fun fs _ =>
      ((exManifestJSON, none),
        fs.set [lit "c", lit "61", lit "manifest.json"] (.file 420 exManifestJSON)) }

/-- Options with base directory `/c` and nothing else set. -/
def exOpts : PullOptions := ⟨[], [], [], false, false, lit "/c", false⟩

/-- The empty disk. -/
def emptyFS : FS := fun _ => none

/-- A disk where the cache directory `/c/61` of the image `a` exists and
`manifest.json` in it is a directory. -/
def exManifestIsDirFS : FS := fun p =>
  if p = [lit "c"] ∨ p = [lit "c", lit "61"] ∨ p = [lit "c", lit "61", lit "manifest.json"]
  then some .dir else none

/-- A toy archive format: the blob `A` holds the file `foo` with content `hello`, the
blob `B` the file `foo` with content `hi`, the blob `C` the file `foo` twice, with
content `AB` and then `CD`, the blob `D` a directory `bin`, the file `bin/sh` with
content `#!` and a symbolic link `lnk`; anything else is not gzip. -/
def exDecode : Decode := fun blob =>
  if blob = lit "A" then
    .ok (.ofList [(⟨lit "foo", TypeReg, 420⟩, lit "hello")])
  else if blob = lit "B" then
    .ok (.ofList [(⟨lit "foo", TypeReg, 420⟩, lit "hi")])
  else if blob = lit "C" then
    .ok (.ofList [(⟨lit "foo", TypeReg, 420⟩, lit "AB"), (⟨lit "foo", TypeReg, 420⟩, lit "CD")])
  else if blob = lit "D" then
    .ok (.ofList [(⟨lit "bin/", 53, 493⟩, []), (⟨lit "bin/sh", TypeReg, 493⟩, lit "#!"),
      (⟨lit "lnk", 50, 511⟩, [])])
  else .error (.leaf (lit "gzip: invalid header"))

/-- A disk with the cache directory `/c/61` holding the blobs `aa` (`A`), `bb` (`B`),
`cc` (`C`) and `dd` (`D`), and an empty directory `/d`. -/
def exBlobFS : FS := fun p =>
  if p = [lit "c"] ∨ p = [lit "c", lit "61"] ∨ p = [lit "d"] then some .dir
  else if p = [lit "c", lit "61", lit "aa"] then some (.file 420 (lit "A"))
  else if p = [lit "c", lit "61", lit "bb"] then some (.file 420 (lit "B"))
  else if p = [lit "c", lit "61", lit "cc"] then some (.file 420 (lit "C"))
  else if p = [lit "c", lit "61", lit "dd"] then some (.file 420 (lit "D"))
  else none

/-- A pull result with the layers `aa` then `bb`. -/
def exPullResult : PullResult :=
  ⟨lit "/c/61", ⟨2, DockerV2Schema2MediaType,
    [⟨DockerV2Schema2LayerMediaType, 1, lit "sha256:aa"⟩,
     ⟨DockerV2Schema2LayerMediaType, 1, lit "sha256:bb"⟩]⟩⟩

/-- A pull result with the layers `aa`, then `zz`, whose blob is missing, then `bb`. -/
def exPullResultMissing : PullResult :=
  ⟨lit "/c/61", ⟨2, DockerV2Schema2MediaType,
    [⟨DockerV2Schema2LayerMediaType, 1, lit "sha256:aa"⟩,
     ⟨DockerV2Schema2LayerMediaType, 1, lit "sha256:zz"⟩,
     ⟨DockerV2Schema2LayerMediaType, 1, lit "sha256:bb"⟩]⟩⟩

/-! ## Manifest validation -/

theorem hasPrefix_iff (s pre : GoString) : hasPrefix s pre = true ↔ pre <+: s := by
  unfold hasPrefix
  exact List.isPrefixOf_iff_prefix

theorem checkLayers_ok_iff (ls : List Layer) :
    checkLayers ls = .ok () ↔ ∀ l ∈ ls, l.Valid := by
  induction ls with
  | nil => simp [checkLayers]
  | cons l rest ih =>
    unfold checkLayers
    by_cases h1 : l.MediaType = DockerV2Schema2LayerMediaType
    · by_cases h2 : hasPrefix l.Digest SHA256Prefix = true
      · have h2' := (hasPrefix_iff _ _).1 h2
        simp [h1, h2, ih, Layer.Valid, h2']
      · have h2' : ¬ SHA256Prefix <+: l.Digest := fun h => h2 ((hasPrefix_iff _ _).2 h)
        simp [h1, h2, Layer.Valid, h2']
    · simp [h1, Layer.Valid]

theorem checkLayers_first_invalid (pre post : List Layer) (l : Layer)
    (hpre : ∀ x ∈ pre, x.Valid) (hl : ¬ l.Valid) :
    checkLayers (pre ++ l :: post) = .error (layerError l) := by
  induction pre with
  | nil =>
    simp only [List.nil_append]
    unfold checkLayers layerError
    by_cases h1 : l.MediaType = DockerV2Schema2LayerMediaType
    · have h2 : ¬ hasPrefix l.Digest SHA256Prefix = true := fun h =>
        hl ⟨h1, (hasPrefix_iff _ _).1 h⟩
      simp [h1, h2]
    · simp [h1]
  | cons x rest ih =>
    have hx := hpre x (List.mem_cons_self _ _)
    have hx2 : hasPrefix x.Digest SHA256Prefix = true := (hasPrefix_iff _ _).2 hx.2
    simp only [List.cons_append]
    unfold checkLayers
    simp only [hx.1, hx2, ne_eq, not_true_eq_false, if_false, Bool.not_true]
    exact ih (fun y hy => hpre y (List.mem_cons_of_mem _ hy))

/-- C3. For bytes that decode as the manifest `m`, `parseManifest` succeeds exactly when
`m.SchemaVersion = 2`, `m.MediaType` is the Docker v2 schema 2 media type and every layer
has the gzip layer media type and a digest that starts with `sha256:`; on success the
result is `m` itself. The checks run in the order schema version, media type, layers in
sequence (media type before digest within a layer), and the error is the one of the first
violation; a schema version other than 2 fails whatever the other fields are. -/
theorem parseManifest_accepts_iff (unmarshal : Unmarshal) (data : GoString) (m : Manifest)
    (hdec : unmarshal data = .ok m) :
    ((∃ r, parseManifest unmarshal data = .ok r) ↔
        (m.SchemaVersion = 2 ∧ m.MediaType = DockerV2Schema2MediaType ∧
          ∀ l ∈ m.Layers, l.MediaType = DockerV2Schema2LayerMediaType ∧
            SHA256Prefix <+: l.Digest)) ∧
    (∀ r, parseManifest unmarshal data = .ok r → r = m) ∧
    (m.SchemaVersion ≠ 2 →
        parseManifest unmarshal data = .error (errSchemaVersion m)) ∧
    (m.SchemaVersion = 2 → m.MediaType ≠ DockerV2Schema2MediaType →
        parseManifest unmarshal data = .error (errSchema m)) ∧
    (m.SchemaVersion = 2 → m.MediaType = DockerV2Schema2MediaType →
        ∀ pre l post, m.Layers = pre ++ l :: post → (∀ x ∈ pre, x.Valid) → ¬ l.Valid →
          parseManifest unmarshal data = .error (layerError l)) := by
  have hv : DockerV2SchemaVersion = 2 := rfl
  refine ⟨?_, ?_, ?_, ?_, ?_⟩
  · unfold parseManifest
    rw [hdec]
    simp only [hv]
    by_cases h1 : m.SchemaVersion = 2
    · by_cases h2 : m.MediaType = DockerV2Schema2MediaType
      · cases hc : checkLayers m.Layers with
        | error e =>
          have : ¬ ∀ l ∈ m.Layers, l.Valid := fun h => by
            rw [(checkLayers_ok_iff _).2 h] at hc; cases hc
          simp [h1, h2, hc]
          simpa [Layer.Valid] using this
        | ok u =>
          have : ∀ l ∈ m.Layers, l.Valid := (checkLayers_ok_iff _).1 hc
          simp [h1, h2, hc]
          simpa [Layer.Valid] using this
      · simp [h1, h2]
    · simp [h1]
  · intro r hr
    unfold parseManifest at hr
    rw [hdec] at hr
    simp only at hr
    split at hr
    · cases hr
    · split at hr
      · cases hr
      · split at hr
        · cases hr
        · cases hr; rfl
  · intro h1
    unfold parseManifest
    rw [hdec]
    simp [hv, h1]
  · intro h1 h2
    unfold parseManifest
    rw [hdec]
    simp [hv, h1, h2]
  · intro h1 h2 pre l post hl hpre hbad
    unfold parseManifest
    rw [hdec]
    simp [hv, h1, h2, hl, checkLayers_first_invalid pre post l hpre hbad]

set_option maxRecDepth 100000 in
/-- Witness for C3: the text of `exManifest` decodes to it and is accepted unchanged. -/
theorem parseManifest_accepts_iff_witness :
    exUnmarshal exManifestJSON = .ok exManifest ∧
    parseManifest exUnmarshal exManifestJSON = .ok exManifest :=
  ⟨by decide,
   Exists.elim
    ((parseManifest_accepts_iff exUnmarshal exManifestJSON exManifest (by decide)).1.2
      ⟨rfl, rfl, by decide⟩)
    (fun r hr => by
      have := (parseManifest_accepts_iff exUnmarshal exManifestJSON exManifest
        (by decide)).2.1 r hr
      rw [hr, this])⟩

set_option maxRecDepth 100000 in
/-- C9. A manifest with schema version 2 and media type `text/plain` is rejected with
a message that is built from the schema version and the expected media type only: it reads
`Unsupport manifest schema: '\x02', expect "application/vnd.docker.distribution.manifest.v2+json"`
and does not contain `text/plain`. -/
theorem parseManifest_mediaType_error_omits_actual :
    parseManifest (fun _ => .ok ⟨2, lit "text/plain", []⟩) (lit "\x7b\x7d")
      = .error (.leaf (lit
        "Unsupport manifest schema: '\\x02', expect \"application/vnd.docker.distribution.manifest.v2+json\""))
    ∧ ¬ (lit "text/plain" <:+: lit
        "Unsupport manifest schema: '\\x02', expect \"application/vnd.docker.distribution.manifest.v2+json\"") := by
  constructor
  · decide
  · decide

/-! ## Cache key -/

set_option maxRecDepth 100000 in
theorem hexDigit_injOn : ∀ i j : Fin 16, hexDigit i.val = hexDigit j.val → i = j := by
  decide

theorem hexDigit_mem : ∀ i : Fin 16, hexDigit i.val ∈ hextable := by
  decide

theorem hexByte_inj (a b : Byte) (h : hexByte a = hexByte b) : a = b := by
  unfold hexByte at h
  simp only [List.cons.injEq, and_true] at h
  have ha : a.val / 16 < 16 := by omega
  have hb : b.val / 16 < 16 := by omega
  have ha2 : a.val % 16 < 16 := by omega
  have hb2 : b.val % 16 < 16 := by omega
  have h1 := hexDigit_injOn ⟨a.val / 16, ha⟩ ⟨b.val / 16, hb⟩ h.1
  have h2 := hexDigit_injOn ⟨a.val % 16, ha2⟩ ⟨b.val % 16, hb2⟩ h.2
  simp only [Fin.mk.injEq] at h1 h2
  apply Fin.ext
  omega

theorem hexEncodeToString_inj (a b : GoString)
    (h : hexEncodeToString a = hexEncodeToString b) : a = b := by
  induction a generalizing b with
  | nil =>
    cases b with
    | nil => rfl
    | cons y ys => simp [hexEncodeToString, hexByte] at h
  | cons x xs ih =>
    cases b with
    | nil => simp [hexEncodeToString, hexByte] at h
    | cons y ys =>
      simp only [hexEncodeToString, hexByte, List.cons_append, List.nil_append,
        List.cons.injEq] at h
      have hxy : x = y := hexByte_inj x y (by simp [hexByte, h.1, h.2.1])
      rw [hxy, ih ys h.2.2]

theorem hexEncodeToString_length (a : GoString) :
    (hexEncodeToString a).length = 2 * a.length := by
  induction a with
  | nil => rfl
  | cons x xs ih => simp [hexEncodeToString, hexByte, ih]; omega

theorem hexEncodeToString_mem (a : GoString) :
    ∀ c ∈ hexEncodeToString a, c ∈ hextable := by
  induction a with
  | nil => simp [hexEncodeToString]
  | cons x xs ih =>
    intro c hc
    simp only [hexEncodeToString, hexByte, List.cons_append, List.nil_append,
      List.mem_cons] at hc
    rcases hc with hc | hc | hc
    · rw [hc]; exact hexDigit_mem ⟨x.val / 16, by omega⟩
    · rw [hc]; exact hexDigit_mem ⟨x.val % 16, by omega⟩
    · exact ih c hc

set_option maxRecDepth 100000 in
theorem hextable_no_sep_dot : ∀ c ∈ hextable, c ≠ Separator ∧ c ≠ 46 := by
  decide

theorem hex_plainElem (a : GoString) (ha : a ≠ []) : PlainElem (hexEncodeToString a) := by
  have hmem := hexEncodeToString_mem a
  have hnd : ∀ c ∈ hexEncodeToString a, c ≠ Separator ∧ c ≠ 46 := fun c hc =>
    hextable_no_sep_dot c (hmem c hc)
  cases a with
  | nil => exact absurd rfl ha
  | cons x xs =>
    have h0 : hexDigit (x.val / 16) ∈ hexEncodeToString (x :: xs) := by
      simp [hexEncodeToString, hexByte]
    refine ⟨?_, ?_, ?_, ?_⟩
    · simp [hexEncodeToString, hexByte]
    · intro hs; exact (hnd _ hs).1 rfl
    · intro hd
      rw [hd] at h0
      simp only [dot, List.mem_singleton] at h0
      exact (hnd _ (by rw [hd]; simp [dot])).2 rfl
    · intro hd
      exact (hnd 46 (by rw [hd]; simp [dotdot])).2 rfl

theorem splitSep_ne_nil (p : GoString) : splitSep p ≠ [] := by
  cases p with
  | nil => simp [splitSep]
  | cons c rest =>
    unfold splitSep
    split
    · simp
    · split <;> simp

theorem splitSep_plain (k : GoString) (hk : Separator ∉ k) : splitSep k = [k] := by
  induction k with
  | nil => rfl
  | cons c rest ih =>
    have hc : c ≠ Separator := fun h => hk (by simp [h])
    have hr : Separator ∉ rest := fun h => hk (List.mem_cons_of_mem _ h)
    unfold splitSep
    simp [hc, ih hr]

theorem splitSep_append_sep (a k : GoString) (hk : Separator ∉ k) :
    splitSep (a ++ Separator :: k) = splitSep a ++ [k] := by
  induction a with
  | nil =>
    simp only [List.nil_append]
    unfold splitSep
    simp [splitSep_plain k hk, splitSep]
  | cons c rest ih =>
    simp only [List.cons_append]
    unfold splitSep
    by_cases hc : c = Separator
    · simp [hc, ih]
    · simp only [hc, if_false]
      rw [ih]
      cases hs : splitSep rest with
      | nil => exact absurd hs (splitSep_ne_nil rest)
      | cons x xs => simp

theorem cleanStep_plain (rooted : Bool) (stack : List GoString) (k : GoString)
    (hk : PlainElem k) : cleanStep rooted stack k = k :: stack := by
  unfold cleanStep
  simp [hk.1, hk.2.2.1, hk.2.2.2]

theorem cleanStep_nil (rooted : Bool) (stack : List GoString) :
    cleanStep rooted stack [] = stack := by
  simp [cleanStep]

theorem joinSep_append_singleton (l : List GoString) (k : GoString) (hl : l ≠ []) :
    joinSep (l ++ [k]) = joinSep l ++ Separator :: k := by
  induction l with
  | nil => exact absurd rfl hl
  | cons x xs ih =>
    cases xs with
    | nil => simp [joinSep]
    | cons y ys =>
      have := ih (by simp)
      simp only [List.cons_append] at this ⊢
      simp [joinSep, this]

theorem render_push_inj (rooted : Bool) (stack : List GoString) (k1 k2 : GoString)
    (h : render rooted (k1 :: stack) = render rooted (k2 :: stack)) : k1 = k2 := by
  unfold render at h
  simp only [List.reverse_cons, List.cons_ne_nil, if_false] at h
  by_cases hs : stack.reverse = []
  · simp only [hs, List.nil_append, joinSep] at h
    cases rooted <;> simpa using h
  · rw [joinSep_append_singleton _ _ hs, joinSep_append_singleton _ _ hs] at h
    cases rooted <;> simpa using h

theorem render_push_ne (rooted : Bool) (stack : List GoString) (k : GoString)
    (hk : PlainElem k) : render rooted (k :: stack) ≠ render rooted stack := by
  unfold render
  simp only [List.reverse_cons, List.cons_ne_nil, if_false]
  by_cases hs : stack = []
  · subst hs
    cases rooted
    · simpa [joinSep] using hk.2.2.1
    · simpa [joinSep] using hk.1
  · have hs2 : stack.reverse ≠ [] := by simpa using hs
    rw [joinSep_append_singleton _ _ hs2]
    cases rooted
    · simp [hs]
    · simp

theorem Clean_append_plain (a k : GoString) (ha : a ≠ []) (hk : PlainElem k) :
    Clean (a ++ Separator :: k) =
      render (decide (a.head? = some Separator))
        (k :: (splitSep a).foldl (cleanStep (decide (a.head? = some Separator))) []) := by
  have hne : a ++ Separator :: k ≠ [] := by simp
  have hhead : (a ++ Separator :: k).head? = a.head? := by
    cases a with
    | nil => exact absurd rfl ha
    | cons c rest => rfl
  unfold Clean render
  simp only [hne, if_false, hhead, splitSep_append_sep a k hk.2.1, List.foldl_append,
    List.foldl_cons, List.foldl_nil, cleanStep_plain _ _ k hk]

theorem Clean_append_empty (a : GoString) (ha : a ≠ []) :
    Clean (a ++ Separator :: []) =
      render (decide (a.head? = some Separator))
        ((splitSep a).foldl (cleanStep (decide (a.head? = some Separator))) []) := by
  have hne : a ++ Separator :: [] ≠ [] := by simp
  have hhead : (a ++ Separator :: []).head? = a.head? := by
    cases a with
    | nil => exact absurd rfl ha
    | cons c rest => rfl
  unfold Clean render
  simp only [hne, if_false, hhead, splitSep_append_sep a [] (by simp), List.foldl_append,
    List.foldl_cons, List.foldl_nil, cleanStep_nil]

theorem Clean_plain (k : GoString) (hk : PlainElem k) : Clean k = k := by
  have hhead : k.head? ≠ some Separator := by
    cases k with
    | nil => simp
    | cons c rest =>
      intro h
      simp only [List.head?_cons, Option.some.injEq] at h
      exact hk.2.1 (by simp [h])
  unfold Clean
  simp [hk.1, hhead, splitSep_plain k hk.2.1, cleanStep_plain _ _ k hk, joinSep]

theorem Join_hex_inj (baseDir a b : GoString)
    (h : Join baseDir (hexEncodeToString a) = Join baseDir (hexEncodeToString b)) :
    a = b := by
  by_cases ha : a = [] <;> by_cases hb : b = []
  · rw [ha, hb]
  · exfalso
    subst ha
    have hkb := hex_plainElem b hb
    unfold Join at h
    by_cases hbase : baseDir = []
    · simp only [hbase, ne_eq, not_true_eq_false, if_false, hexEncodeToString, hkb.1,
        not_false_eq_true, if_true, Clean_plain _ hkb] at h
      exact hkb.1 h.symm
    · simp only [ne_eq, hbase, not_false_eq_true, if_true, hexEncodeToString] at h
      rw [Clean_append_empty _ hbase, Clean_append_plain _ _ hbase hkb] at h
      exact render_push_ne _ _ _ hkb h.symm
  · exfalso
    subst hb
    have hka := hex_plainElem a ha
    unfold Join at h
    by_cases hbase : baseDir = []
    · simp only [hbase, ne_eq, not_true_eq_false, if_false, hexEncodeToString, hka.1,
        not_false_eq_true, if_true, Clean_plain _ hka] at h
    · simp only [ne_eq, hbase, not_false_eq_true, if_true, hexEncodeToString] at h
      rw [Clean_append_empty _ hbase, Clean_append_plain _ _ hbase hka] at h
      exact render_push_ne _ _ _ hka h
  · have hka := hex_plainElem a ha
    have hkb := hex_plainElem b hb
    apply hexEncodeToString_inj
    unfold Join at h
    by_cases hbase : baseDir = []
    · simpa only [hbase, ne_eq, not_true_eq_false, if_false, hka.1, hkb.1,
        not_false_eq_true, if_true, Clean_plain _ hka, Clean_plain _ hkb] using h
    · simp only [ne_eq, hbase, not_false_eq_true, if_true] at h
      rw [Clean_append_plain _ _ hbase hka, Clean_append_plain _ _ hbase hkb] at h
      exact render_push_inj _ _ _ _ h

/-- C7. The cache key `hex.EncodeToString([]byte(name))` is lossless: two names have the
same key exactly when they are equal. The key has twice the length of the name and
consists of the characters `0-9a-f` only, so it holds no path separator and no dot; and
for a fixed base directory two names give the same path `Join(baseDir, key)`, and the
same directory in `getDestDir`, exactly when they are equal. -/
theorem cacheKey_lossless (env : Env) (baseDir a b : GoString) :
    (hexEncodeToString a = hexEncodeToString b ↔ a = b) ∧
    (hexEncodeToString a).length = 2 * a.length ∧
    (∀ c ∈ hexEncodeToString a, c ∈ lit "0123456789abcdef") ∧
    (∀ c ∈ hexEncodeToString a, c ≠ Separator ∧ c ≠ 46) ∧
    (Join baseDir (hexEncodeToString a) = Join baseDir (hexEncodeToString b) ↔ a = b) ∧
    (destDirPath env a baseDir = destDirPath env b baseDir ↔ a = b) :=
  ⟨⟨hexEncodeToString_inj a b, fun h => by rw [h]⟩,
   hexEncodeToString_length a,
   hexEncodeToString_mem a,
   fun c hc => hextable_no_sep_dot c (hexEncodeToString_mem a c hc),
   ⟨Join_hex_inj baseDir a b, fun h => by rw [h]⟩,
   ⟨Join_hex_inj _ a b, fun h => by rw [h]⟩⟩

/-! ## Filesystem lemmas -/

theorem FS.get_set_same (fs : FS) (p : Path) (n : Node) (hp : p ≠ []) :
    (fs.set p n).get p = some n := by
  simp [FS.get, FS.set, hp]

theorem FS.get_set_ne (fs : FS) (p q : Path) (n : Node) (h : q ≠ p) :
    (fs.set p n).get q = fs.get q := by
  simp [FS.get, FS.set, h]

theorem FS.mkdirAllFrom_mono (rest : List GoString) :
    ∀ (fs fs1 : FS) (acc : Path), fs.mkdirAllFrom acc rest = .ok fs1 →
      ∀ p n, fs.get p = some n → fs1.get p = some n := by
  induction rest with
  | nil =>
    intro fs fs1 acc h p n hp
    simp only [FS.mkdirAllFrom, Except.ok.injEq] at h
    rw [← h]; exact hp
  | cons c rest ih =>
    intro fs fs1 acc h p n hp
    unfold FS.mkdirAllFrom at h
    split at h
    · next hnone =>
      apply ih _ _ _ h p n
      have hne : p ≠ acc ++ [c] := by
        intro heq; rw [heq, hnone] at hp; cases hp
      rw [FS.get_set_ne _ _ _ _ hne]; exact hp
    · exact ih _ _ _ h p n hp
    · cases h

theorem FS.mkdirAllFrom_lookup (rest : List GoString) :
    ∀ (fs fs1 : FS) (acc : Path), fs.mkdirAllFrom acc rest = .ok fs1 →
      fs.get acc = some .dir → fs1.lookupFrom acc rest = .ok .dir := by
  induction rest with
  | nil =>
    intro fs fs1 acc h hacc
    simp only [FS.mkdirAllFrom, Except.ok.injEq] at h
    subst h
    simp [FS.lookupFrom, hacc]
  | cons c rest ih =>
    intro fs fs1 acc h hacc
    have hacc1 : fs1.get acc = some .dir := FS.mkdirAllFrom_mono _ _ _ _ h _ _ hacc
    unfold FS.lookupFrom
    simp only [hacc1]
    unfold FS.mkdirAllFrom at h
    split at h
    · exact ih _ _ _ h (FS.get_set_same _ _ _ (by simp))
    · next hdir => exact ih _ _ _ h hdir
    · cases h

theorem osMkdirAll_stat (env : Env) (fs fs1 : FS) (path : GoString)
    (h : osMkdirAll env fs path = .ok fs1) : osStat env fs1 path = .ok .dir := by
  unfold osMkdirAll at h
  split at h
  · next fs2 hmk =>
    cases h
    unfold osStat FS.lookup
    rw [FS.mkdirAllFrom_lookup _ _ _ _ hmk (by simp [FS.get])]
  · cases h

/-! ## Cache directory -/

/-- C8. When `getDestDir` succeeds, a second call with the same arguments on the state
it left succeeds too, returns the same path, reports `existed = true` and changes
nothing. The first call reports `existed = false` exactly when `Stat` found no node at
the path, and then the path is a directory afterwards. A file at the path makes the
call fail with `Dest dir ... is not a directory`, the disk left as it was. -/
theorem getDestDir_idempotent (env : Env) (fs : FS) (name baseDir : GoString) :
    (∀ dir existed, (getDestDir env fs name baseDir).1 = .ok (dir, existed) →
      dir = destDirPath env name baseDir ∧
      getDestDir env (getDestDir env fs name baseDir).2 name baseDir
        = (.ok (dir, true), (getDestDir env fs name baseDir).2) ∧
      (existed = false ↔ osStat env fs dir = .error ⟨lit "stat", dir, .ENOENT⟩) ∧
      (existed = false → osStat env (getDestDir env fs name baseDir).2 dir = .ok .dir)) ∧
    (∀ mode content,
      osStat env fs (destDirPath env name baseDir) = .ok (.file mode content) →
      getDestDir env fs name baseDir =
        (.error (.leaf (lit "Dest dir " ++ destDirPath env name baseDir
          ++ lit " is not a directory")), fs)) := by
  constructor
  · intro dir existed h
    unfold getDestDir at h
    simp only at h
    cases hst : osStat env fs (destDirPath env name baseDir) with
    | error err =>
      rw [hst] at h
      simp only at h
      by_cases hne : IsNotExist err = true
      · simp only [hne, if_true] at h
        cases hmk : osMkdirAll env fs (destDirPath env name baseDir) with
        | error e2 => rw [hmk] at h; simp at h
        | ok fs1 =>
          rw [hmk] at h
          simp only [Except.ok.injEq, Prod.mk.injEq] at h
          obtain ⟨hd, he⟩ := h
          have hfs : (getDestDir env fs name baseDir).2 = fs1 := by
            unfold getDestDir; simp [hst, hne, hmk]
          have hst1 := osMkdirAll_stat env fs fs1 _ hmk
          have herr : err = ⟨lit "stat", destDirPath env name baseDir, .ENOENT⟩ := by
            unfold osStat at hst
            split at hst
            · cases hst
            · next e hl =>
              simp only [Except.error.injEq] at hst
              subst hst
              simp only [IsNotExist, decide_eq_true_eq] at hne
              simp only [PathError.mk.injEq, true_and]
              exact hne
          subst hd
          refine ⟨rfl, ?_, ?_, ?_⟩
          · rw [hfs]
            unfold getDestDir
            simp [hst1, Node.IsDir]
          · rw [hst, herr]; simp [he.symm]
          · intro _; rw [hfs]; exact hst1
      · simp only [hne] at h
        simp at h
    | ok stat =>
      rw [hst] at h
      simp only at h
      cases stat with
      | file m c => simp [Node.IsDir] at h
      | dir =>
        simp only [Node.IsDir, Bool.not_true, Bool.false_eq_true, if_false, Except.ok.injEq,
          Prod.mk.injEq] at h
        obtain ⟨hd, he⟩ := h
        have hfs : (getDestDir env fs name baseDir).2 = fs := by
          unfold getDestDir; simp [hst, Node.IsDir]
        subst hd
        refine ⟨rfl, ?_, ?_, ?_⟩
        · rw [hfs]
          unfold getDestDir
          simp [hst, Node.IsDir]
        · rw [hst]; simp [he.symm]
        · intro hf; rw [← he] at hf; cases hf
  · intro mode content hst
    unfold getDestDir
    simp [hst, Node.IsDir]

set_option maxRecDepth 100000 in
/-- Witness for C8: on an empty disk the directory `/c/61` of the image `a` is created
by the first call and found by the second. -/
theorem getDestDir_idempotent_witness :
    (getDestDir ⟨[], lit "/tmp"⟩ (fun _ => none) (lit "a") (lit "/c")).1
      = .ok (lit "/c/61", false) ∧
    (getDestDir ⟨[], lit "/tmp"⟩
        (getDestDir ⟨[], lit "/tmp"⟩ (fun _ => none) (lit "a") (lit "/c")).2
        (lit "a") (lit "/c")).1 = .ok (lit "/c/61", true) :=
  ⟨by decide,
   congrArg Prod.fst
    ((getDestDir_idempotent ⟨[], lit "/tmp"⟩ (fun _ => none) (lit "a") (lit "/c")).1
      (lit "/c/61") false (by decide)).2.1⟩

/-! ## Resolution of cleaned paths -/

theorem splitSep_sepFree (p : GoString) : ∀ e ∈ splitSep p, Separator ∉ e := by
  induction p with
  | nil => simp [splitSep]
  | cons c rest ih =>
    unfold splitSep
    by_cases hc : c = Separator
    · simp only [hc, if_true, List.mem_cons]
      intro e he
      rcases he with he | he
      · simp [he]
      · exact ih e he
    · simp only [hc, if_false]
      cases hs : splitSep rest with
      | nil => exact absurd hs (splitSep_ne_nil rest)
      | cons x xs =>
        rw [hs] at ih
        intro e he
        simp only [List.mem_cons] at he
        rcases he with he | he
        · rw [he]
          intro hmem
          simp only [List.mem_cons] at hmem
          rcases hmem with hmem | hmem
          · exact hc hmem.symm
          · exact ih x (by simp) hmem
        · exact ih e (by simp [he])

theorem splitSep_cons_ne (c : Byte) (rest x : GoString) (xs : List GoString)
    (hc : c ≠ Separator) (h : splitSep rest = x :: xs) :
    splitSep (c :: rest) = (c :: x) :: xs := by
  simp [splitSep, hc, h]

theorem splitSep_cons_sep (x z : GoString) (hx : Separator ∉ x) :
    splitSep (x ++ Separator :: z) = x :: splitSep z := by
  induction x with
  | nil => simp [splitSep]
  | cons c rest ih =>
    have hc : c ≠ Separator := fun h => hx (by simp [h])
    have hr : Separator ∉ rest := fun h => hx (List.mem_cons_of_mem _ h)
    rw [List.cons_append]
    exact splitSep_cons_ne c _ rest _ hc (ih hr)

theorem splitSep_joinSep (l : List GoString) (hl : l ≠ [])
    (hfree : ∀ e ∈ l, Separator ∉ e) : splitSep (joinSep l) = l := by
  induction l with
  | nil => exact absurd rfl hl
  | cons x xs ih =>
    cases xs with
    | nil => simpa [joinSep] using splitSep_plain x (hfree x (by simp))
    | cons y ys =>
      have h1 := ih (by simp) (fun e he => hfree e (List.mem_cons_of_mem _ he))
      simp only [joinSep]
      rw [splitSep_cons_sep x _ (hfree x (by simp)), h1]

theorem resolveStep_skip (acc : Path) (c : GoString) (h : c = [] ∨ c = dot) :
    resolveStep acc c = acc := by
  simp [resolveStep, h]

theorem resolveStep_dotdot (acc : Path) : resolveStep acc dotdot = acc.dropLast := by
  simp [resolveStep, dotdot, dot]

theorem resolveStep_name (acc : Path) (c : GoString) (h1 : c ≠ []) (h2 : c ≠ dot)
    (h3 : c ≠ dotdot) : resolveStep acc c = acc ++ [c] := by
  simp [resolveStep, h1, h2, h3]

theorem cleanStep_resolve (rooted : Bool) (start : Path) (hstart : rooted = true → start = [])
    (st : List GoString) (c : GoString) (hst : GoodStack rooted st) (hc : Separator ∉ c) :
    GoodStack rooted (cleanStep rooted st c) ∧
    (cleanStep rooted st c).reverse.foldl resolveStep start
      = resolveStep (st.reverse.foldl resolveStep start) c := by
  have hpush : ∀ e : GoString, e ≠ [] → e ≠ dot → (rooted = true → e ≠ dotdot) →
      Separator ∉ e → GoodStack rooted (e :: st) := by
    intro e h1 h2 h3 h4 x hx
    simp only [List.mem_cons] at hx
    rcases hx with hx | hx
    · subst hx; exact ⟨h1, h2, h3, h4⟩
    · exact hst x hx
  have hfold : ∀ e : GoString, (e :: st).reverse.foldl resolveStep start
      = resolveStep (st.reverse.foldl resolveStep start) e := by
    intro e
    simp [List.foldl_append]
  by_cases hskip : c = [] ∨ c = dot
  · have hcs : cleanStep rooted st c = st := by simp [cleanStep, hskip]
    rw [hcs, resolveStep_skip _ _ hskip]
    exact ⟨hst, rfl⟩
  · have h1 : c ≠ [] := fun h => hskip (Or.inl h)
    have h2 : c ≠ dot := fun h => hskip (Or.inr h)
    have hd1 : dotdot ≠ [] := by simp [dotdot]
    have hd2 : dotdot ≠ dot := by simp [dotdot, dot]
    by_cases hdd : c = dotdot
    · cases st with
      | nil =>
        cases rooted with
        | true =>
          have hcs : cleanStep true [] c = [] := by simp [cleanStep, hdd, hd1, hd2]
          rw [hcs, hdd, resolveStep_dotdot]
          simp [hstart rfl, GoodStack]
        | false =>
          have hcs : cleanStep false [] c = [c] := by simp [cleanStep, hdd, hd1, hd2]
          rw [hcs]
          exact ⟨hpush c h1 h2 (by simp) hc, hfold c⟩
      | cons top rest =>
        have htop := hst top (by simp)
        have hrest : GoodStack rooted rest := fun e he => hst e (List.mem_cons_of_mem _ he)
        by_cases ht : top = dotdot
        · cases rooted with
          | true => exact absurd ht (htop.2.2.1 rfl)
          | false =>
            have hcs : cleanStep false (top :: rest) c = c :: top :: rest := by
              simp [cleanStep, hdd, hd1, hd2, ht]
            rw [hcs]
            exact ⟨hpush c h1 h2 (by simp) hc, hfold c⟩
        · have hcs : cleanStep rooted (top :: rest) c = rest := by
            simp [cleanStep, hdd, hd1, hd2, ht]
          rw [hcs, hdd, resolveStep_dotdot]
          refine ⟨hrest, ?_⟩
          simp [List.foldl_append, resolveStep_name _ top htop.1 htop.2.1 ht]
    · have hcs : cleanStep rooted st c = c :: st := by simp [cleanStep, hskip, hdd]
      rw [hcs]
      exact ⟨hpush c h1 h2 (fun _ => hdd) hc, hfold c⟩

theorem cleanFold_resolve (rooted : Bool) (start : Path)
    (hstart : rooted = true → start = []) (comps : List GoString) :
    ∀ st, GoodStack rooted st → (∀ c ∈ comps, Separator ∉ c) →
      GoodStack rooted (comps.foldl (cleanStep rooted) st) ∧
      (comps.foldl (cleanStep rooted) st).reverse.foldl resolveStep start
        = comps.foldl resolveStep (st.reverse.foldl resolveStep start) := by
  induction comps with
  | nil => intro st hst _; exact ⟨hst, rfl⟩
  | cons c rest ih =>
    intro st hst hfree
    have hstep := cleanStep_resolve rooted start hstart st c hst (hfree c (by simp))
    have := ih (cleanStep rooted st c) hstep.1 (fun x hx => hfree x (List.mem_cons_of_mem _ hx))
    simp only [List.foldl_cons]
    rw [← hstep.2]
    exact this

theorem joinSep_head (l : List GoString) (x : GoString) (hx : x ≠ []) :
    (joinSep (x :: l)).head? = x.head? := by
  cases l with
  | nil => rfl
  | cons y ys =>
    cases x with
    | nil => exact absurd rfl hx
    | cons c cs => rfl

theorem resolve_render (env : Env) (rooted : Bool) (st : List GoString)
    (hst : GoodStack rooted st) :
    resolve env (render rooted st)
      = st.reverse.foldl resolveStep (if rooted = true then [] else env.cwd) := by
  have hfree : ∀ e ∈ st.reverse, Separator ∉ e := fun e he =>
    (hst e (List.mem_reverse.1 he)).2.2.2
  cases rooted with
  | true =>
    simp only [render, if_true, resolve, List.head?_cons]
    have hsp : splitSep (Separator :: joinSep st.reverse) = [] :: splitSep (joinSep st.reverse) := by
      simp [splitSep]
    rw [hsp]
    simp only [List.foldl_cons, resolveStep_skip _ _ (Or.inl rfl)]
    by_cases hnil : st.reverse = []
    · rw [hnil]
      simp [joinSep, splitSep, resolveStep]
    · rw [splitSep_joinSep _ hnil hfree]
  | false =>
    by_cases hnil : st = []
    · subst hnil
      simp [render, resolve, dot, splitSep, resolveStep, Separator]
    · have hrev : st.reverse ≠ [] := by simpa using hnil
      simp only [render, Bool.false_eq_true, if_false, hnil, resolve]
      rw [splitSep_joinSep _ hrev hfree]
      cases hr : st.reverse with
      | nil => exact absurd hr hrev
      | cons x xs =>
        have hxmem : x ∈ st := List.mem_reverse.1 (by rw [hr]; simp)
        have hx := hst x hxmem
        rw [joinSep_head xs x hx.1]
        have hh : x.head? ≠ some Separator := by
          cases x with
          | nil => simp
          | cons c cs =>
            intro h
            simp only [List.head?_cons, Option.some.injEq] at h
            exact hx.2.2.2 (by simp [h])
        simp [hh]

/-- Cleaning a path does not change what it resolves to. -/
theorem resolve_Clean (env : Env) (s : GoString) : resolve env (Clean s) = resolve env s := by
  by_cases hs : s = []
  · subst hs
    simp [Clean, resolve, dot, splitSep, resolveStep, Separator]
  · have hfold := cleanFold_resolve (decide (s.head? = some Separator))
      (if s.head? = some Separator then [] else env.cwd)
      (by intro h; simp only [decide_eq_true_eq] at h; simp [h])
      (splitSep s) [] (by intro e he; cases he) (splitSep_sepFree s)
    have hcl : Clean s = render (decide (s.head? = some Separator))
        ((splitSep s).foldl (cleanStep (decide (s.head? = some Separator))) []) := by
      simp only [Clean, hs, if_false, render]
    rw [hcl, resolve_render env _ _ hfold.1]
    simp only [decide_eq_true_eq]
    rw [hfold.2]
    rfl

theorem resolve_Join_plain (env : Env) (d k : GoString) (hk : PlainElem k) :
    resolve env (Join d k) = resolve env d ++ [k] := by
  unfold Join
  by_cases hd : d = []
  · subst hd
    simp only [ne_eq, not_true_eq_false, if_false, hk.1, not_false_eq_true, if_true,
      Clean_plain k hk]
    have hh : k.head? ≠ some Separator := by
      cases k with
      | nil => simp
      | cons c cs =>
        intro h
        simp only [List.head?_cons, Option.some.injEq] at h
        exact hk.2.1 (by simp [h])
    simp [resolve, hh, splitSep_plain k hk.2.1, splitSep,
      resolveStep_name _ k hk.1 hk.2.2.1 hk.2.2.2, resolveStep_skip]
  · simp only [ne_eq, hd, not_false_eq_true, if_true]
    rw [resolve_Clean]
    have hhead : (d ++ Separator :: k).head? = d.head? := by
      cases d with
      | nil => exact absurd rfl hd
      | cons c rest => rfl
    simp only [resolve, hhead, splitSep_append_sep d k hk.2.1, List.foldl_append,
      List.foldl_cons, List.foldl_nil, resolveStep_name _ k hk.1 hk.2.2.1 hk.2.2.2]

theorem FS.lookupFrom_parent (fs : FS) (p : List GoString) (k : GoString) :
    ∀ acc n, fs.lookupFrom acc (p ++ [k]) = .ok n → fs.lookupFrom acc p = .ok .dir := by
  induction p with
  | nil =>
    intro acc n h
    simp only [List.nil_append] at h
    cases hg : fs.get acc with
    | none => simp [FS.lookupFrom, hg] at h
    | some nd =>
      cases nd with
      | dir => simp [FS.lookupFrom, hg]
      | file m c => simp [FS.lookupFrom, hg] at h
  | cons c rest ih =>
    intro acc n h
    simp only [List.cons_append] at h
    cases hg : fs.get acc with
    | none => simp [FS.lookupFrom, hg] at h
    | some nd =>
      cases nd with
      | dir =>
        simp only [FS.lookupFrom, hg] at h ⊢
        exact ih _ _ h
      | file m c => simp [FS.lookupFrom, hg] at h

/-! ## Pull -/

theorem manifestName_plain : PlainElem (lit "manifest.json") := by
  unfold PlainElem
  decide

theorem getDestDir_ok_dir (env : Env) (fs : FS) (name baseDir dir : GoString) (existed : Bool)
    (h : (getDestDir env fs name baseDir).1 = .ok (dir, existed)) :
    dir = destDirPath env name baseDir := by
  unfold getDestDir at h
  simp only at h
  split at h
  · split at h
    · split at h
      · cases h
      · simp only [Except.ok.injEq, Prod.mk.injEq] at h; exact h.1.symm
    · cases h
  · split at h
    · cases h
    · simp only [Except.ok.injEq, Prod.mk.injEq] at h; exact h.1.symm

theorem getDestDir_existed (env : Env) (fs : FS) (name baseDir dir : GoString)
    (h : (getDestDir env fs name baseDir).1 = .ok (dir, true)) :
    getDestDir env fs name baseDir = (.ok (dir, true), fs) := by
  have hd := getDestDir_ok_dir env fs name baseDir dir true h
  subst hd
  unfold getDestDir at h ⊢
  simp only at h ⊢
  split at h
  · split at h
    · split at h
      · cases h
      · simp at h
    · cases h
  · next stat hst =>
    split at h
    · cases h
    · next hdir => simp [hdir]

theorem getDestDir_of_stat_dir (env : Env) (fs : FS) (name baseDir : GoString)
    (h : osStat env fs (destDirPath env name baseDir) = .ok .dir) :
    getDestDir env fs name baseDir = (.ok (destDirPath env name baseDir, true), fs) := by
  unfold getDestDir
  simp [h, Node.IsDir]

theorem osReadFile_ok_lookup (env : Env) (fs : FS) (path data : GoString)
    (h : osReadFile env fs path = .ok data) :
    ∃ mode, fs.lookup (resolve env path) = .ok (.file mode data) := by
  unfold osReadFile at h
  split at h
  · next m c hl =>
    simp only [Except.ok.injEq] at h
    subst h
    exact ⟨m, hl⟩
  · cases h
  · cases h

theorem osReadFile_ok_stat (env : Env) (fs : FS) (path data : GoString)
    (h : osReadFile env fs path = .ok data) :
    ∃ n, osStat env fs path = .ok n := by
  obtain ⟨m, hl⟩ := osReadFile_ok_lookup env fs path data h
  exact ⟨.file m data, by simp [osStat, hl]⟩

theorem osReadFile_ok_parent (env : Env) (fs : FS) (d data : GoString)
    (h : osReadFile env fs (Join d (lit "manifest.json")) = .ok data) :
    osStat env fs d = .ok .dir := by
  obtain ⟨m, hl⟩ := osReadFile_ok_lookup env fs _ data h
  rw [resolve_Join_plain env d _ manifestName_plain] at hl
  unfold osStat FS.lookup
  unfold FS.lookup at hl
  rw [FS.lookupFrom_parent fs _ _ _ _ hl]

theorem pullTransfer_path (tr : Transfer) (unmarshal : Unmarshal) (fs : FS)
    (name : GoString) (opts : PullOptions) (destDir : GoString) (r : PullResult)
    (h : (pullTransfer tr unmarshal fs name opts destDir).result = .ok r) :
    r.Path = destDir := by
  unfold pullTransfer at h
  simp only at h
  repeat' split at h
  all_goals first
    | (cases h; rfl)
    | cases h

theorem PullImage_hit (env : Env) (tr : Transfer) (unmarshal : Unmarshal) (fs : FS)
    (name : GoString) (opts : PullOptions) (dir data : GoString)
    (hdir : (getDestDir env fs name opts.BaseDir).1 = .ok (dir, true))
    (hforce : opts.Force = false)
    (hread : osReadFile env fs (Join dir (lit "manifest.json")) = .ok data) :
    PullImage env tr unmarshal fs name opts =
      match parseManifest unmarshal data with
      | .error err => ⟨.error err, fs, []⟩
      | .ok manifest => ⟨.ok ⟨dir, manifest⟩, fs, []⟩ := by
  obtain ⟨n, hstat⟩ := osReadFile_ok_stat env fs _ data hread
  unfold PullImage
  rw [getDestDir_existed env fs name opts.BaseDir dir hdir]
  simp only [hforce, hstat, hread, Bool.not_false, Bool.and_self, if_true]

theorem PullImage_path (env : Env) (tr : Transfer) (unmarshal : Unmarshal) (fs : FS)
    (name : GoString) (opts : PullOptions) (r : PullResult)
    (h : (PullImage env tr unmarshal fs name opts).result = .ok r) :
    r.Path = destDirPath env name opts.BaseDir := by
  unfold PullImage at h
  cases hg : getDestDir env fs name opts.BaseDir with
  | mk res fs1 =>
    rw [hg] at h
    cases res with
    | error e => simp at h
    | ok pr =>
      obtain ⟨d, ex⟩ := pr
      have hd := getDestDir_ok_dir env fs name opts.BaseDir d ex (by rw [hg])
      simp only at h
      split at h
      · split at h
        · split at h
          · cases h
          · split at h
            · cases h
            · simp only [Except.ok.injEq] at h; rw [← h, hd]
        · rw [pullTransfer_path _ _ _ _ _ _ _ h, hd]
      · rw [pullTransfer_path _ _ _ _ _ _ _ h, hd]

/-- C1. When `getDestDir` reports that the cache directory existed, `Force` is off and
`manifest.json` in it can be read, `PullImage` makes no call of `copy.Image`, leaves
the disk as it is and returns `parseManifest` of the bytes read with the cache
directory as path. Hence, after a fetch that succeeded and left in `manifest.json`
bytes that validate to the manifest it returned, a second fetch of the same image with
the same base directory and without `Force` makes no call of `copy.Image` and returns
the same path and manifest. -/
theorem PullImage_cache_reuse (env : Env) (tr : Transfer) (unmarshal : Unmarshal) :
    (∀ (fs : FS) (name : GoString) (opts : PullOptions) (dir data : GoString),
      (getDestDir env fs name opts.BaseDir).1 = .ok (dir, true) →
      opts.Force = false →
      osReadFile env fs (Join dir (lit "manifest.json")) = .ok data →
      (PullImage env tr unmarshal fs name opts).transfers = [] ∧
      (PullImage env tr unmarshal fs name opts).fs = fs ∧
      (PullImage env tr unmarshal fs name opts).result =
        (match parseManifest unmarshal data with
         | .error err => .error err
         | .ok manifest => .ok ⟨dir, manifest⟩)) ∧
    (∀ (fs : FS) (name : GoString) (opts1 opts2 : PullOptions) (r1 : PullResult)
        (data : GoString),
      (PullImage env tr unmarshal fs name opts1).result = .ok r1 →
      opts2.BaseDir = opts1.BaseDir →
      opts2.Force = false →
      osReadFile env (PullImage env tr unmarshal fs name opts1).fs
        (Join r1.Path (lit "manifest.json")) = .ok data →
      parseManifest unmarshal data = .ok r1.Manifest →
      (PullImage env tr unmarshal (PullImage env tr unmarshal fs name opts1).fs
          name opts2).transfers = [] ∧
      (PullImage env tr unmarshal (PullImage env tr unmarshal fs name opts1).fs
          name opts2).result = .ok r1) := by
  constructor
  · intro fs name opts dir data hdir hforce hread
    rw [PullImage_hit env tr unmarshal fs name opts dir data hdir hforce hread]
    cases parseManifest unmarshal data <;> exact ⟨rfl, rfl, rfl⟩
  · intro fs name opts1 opts2 r1 data h1 hbase hforce hread hparse
    have hpath := PullImage_path env tr unmarshal fs name opts1 r1 h1
    have hstat := osReadFile_ok_parent env _ _ data hread
    rw [hpath, ← hbase] at hstat
    have hget := getDestDir_of_stat_dir env _ name opts2.BaseDir hstat
    have hdir : (getDestDir env (PullImage env tr unmarshal fs name opts1).fs name
        opts2.BaseDir).1 = .ok (r1.Path, true) := by
      rw [hget, hpath, hbase]
    rw [PullImage_hit env tr unmarshal _ name opts2 r1.Path data hdir hforce hread, hparse]
    exact ⟨rfl, rfl⟩

set_option maxRecDepth 100000 in
/-- Witness for C1: the image `a` is fetched on an empty disk through a transfer that
writes `manifest.json`; the second fetch makes no transfer and returns the same result. -/
theorem PullImage_cache_reuse_witness :
    (PullImage exEnv exTransfer exUnmarshal emptyFS (lit "a") exOpts).transfers.length = 1 ∧
    (PullImage exEnv exTransfer exUnmarshal emptyFS (lit "a") exOpts).result
      = .ok ⟨lit "/c/61", exManifest⟩ ∧
    (PullImage exEnv exTransfer exUnmarshal
      (PullImage exEnv exTransfer exUnmarshal emptyFS (lit "a") exOpts).fs
      (lit "a") exOpts).transfers = [] ∧
    (PullImage exEnv exTransfer exUnmarshal
      (PullImage exEnv exTransfer exUnmarshal emptyFS (lit "a") exOpts).fs
      (lit "a") exOpts).result = .ok ⟨lit "/c/61", exManifest⟩ :=
  ⟨by decide, by decide,
   (PullImage_cache_reuse exEnv exTransfer exUnmarshal).2 emptyFS (lit "a") exOpts exOpts
     ⟨lit "/c/61", exManifest⟩ exManifestJSON (by decide) rfl rfl (by decide) (by decide)⟩

set_option maxRecDepth 100000 in
/-- C2. With a transfer library whose `copy.Image` fails with `exTransferError` and
returns no bytes, `PullImage` calls it once and returns the error of `parseManifest`
on the empty input, `Invalid manifest format "": unexpected end of JSON input`, which
does not wrap the transfer error; with one that fails but returns the bytes of a valid
manifest, `PullImage` returns a successful result. -/
theorem PullImage_drops_transfer_error :
    (PullImage exEnv exFailingTransfer exUnmarshal emptyFS (lit "a") exOpts).transfers.length = 1 ∧
    (PullImage exEnv exFailingTransfer exUnmarshal emptyFS (lit "a") exOpts).result
      = .error (.leaf (lit "Invalid manifest format \"\": unexpected end of JSON input")) ∧
    GoError.Is (.leaf (lit "Invalid manifest format \"\": unexpected end of JSON input"))
      exTransferError = false ∧
    (PullImage exEnv exFailingTransferWithBytes exUnmarshal emptyFS (lit "a") exOpts).result
      = .ok ⟨lit "/c/61", exManifest⟩ := by
  refine ⟨by decide, by decide, by decide, by decide⟩

set_option maxRecDepth 100000 in
/-- C10, counterexample. The cache directory `/c/61` exists, `Force` is off and
`manifest.json` is a directory: `Stat` succeeds on it, `ReadFile` fails, and `PullImage`
returns the read error without any call of `copy.Image`. -/
theorem PullImage_unreadable_manifest_fails :
    (getDestDir exEnv exManifestIsDirFS (lit "a") exOpts.BaseDir).1
      = .ok (lit "/c/61", true) ∧
    exOpts.Force = false ∧
    osStat exEnv exManifestIsDirFS (Join (lit "/c/61") (lit "manifest.json")) = .ok .dir ∧
    osReadFile exEnv exManifestIsDirFS (Join (lit "/c/61") (lit "manifest.json"))
      = .error ⟨lit "read", lit "/c/61/manifest.json", .EISDIR⟩ ∧
    (PullImage exEnv exTransfer exUnmarshal exManifestIsDirFS (lit "a") exOpts).transfers = [] ∧
    (PullImage exEnv exTransfer exUnmarshal exManifestIsDirFS (lit "a") exOpts).result
      = .error (.leaf (lit
        "Read manifest file /c/61/manifest.json: read /c/61/manifest.json: is a directory")) ∧
    (pullTransfer exTransfer exUnmarshal exManifestIsDirFS (lit "a") exOpts
      (lit "/c/61")).transfers.length = 1 := by
  refine ⟨by decide, by decide, by decide, by decide, by decide, by decide, by decide⟩

/-- C10, amended. With the cache directory present and `Force` off: when `Stat` of
`manifest.json` fails, `PullImage` continues with the transfer exactly as it does after
`getDestDir` has created the directory (a miss); when `Stat` succeeds and `ReadFile`
fails, `PullImage` returns `Read manifest file ...` with the read error and makes no call
of `copy.Image`. -/
theorem PullImage_manifest_miss (env : Env) (tr : Transfer) (unmarshal : Unmarshal)
    (fs : FS) (name : GoString) (opts : PullOptions) (dir : GoString)
    (hdir : (getDestDir env fs name opts.BaseDir).1 = .ok (dir, true))
    (hforce : opts.Force = false) :
    (∀ e, osStat env fs (Join dir (lit "manifest.json")) = .error e →
      PullImage env tr unmarshal fs name opts = pullTransfer tr unmarshal fs name opts dir) ∧
    (∀ n e, osStat env fs (Join dir (lit "manifest.json")) = .ok n →
      osReadFile env fs (Join dir (lit "manifest.json")) = .error e →
      (PullImage env tr unmarshal fs name opts).result =
        .error (.leaf (lit "Read manifest file " ++ Join dir (lit "manifest.json") ++ lit ": "
          ++ e.toError.Error)) ∧
      (PullImage env tr unmarshal fs name opts).transfers = []) ∧
    (∀ (fs0 : FS) (d : GoString),
      (getDestDir env fs0 name opts.BaseDir).1 = .ok (d, false) →
      PullImage env tr unmarshal fs0 name opts =
        pullTransfer tr unmarshal (getDestDir env fs0 name opts.BaseDir).2 name opts d) := by
  refine ⟨?_, ?_, ?_⟩
  · intro e hstat
    unfold PullImage
    rw [getDestDir_existed env fs name opts.BaseDir dir hdir]
    simp [hforce, hstat]
  · intro n e hstat hread
    unfold PullImage
    rw [getDestDir_existed env fs name opts.BaseDir dir hdir]
    simp [hforce, hstat, hread]
  · intro fs0 d h0
    unfold PullImage
    cases hg : getDestDir env fs0 name opts.BaseDir with
    | mk res fs1 =>
      rw [hg] at h0
      simp only at h0
      subst h0
      simp

set_option maxRecDepth 100000 in
/-- Witness for C10: the cache directory `/c/61` exists and is empty, so `Stat` of
`manifest.json` fails and the fetch continues with the transfer. -/
theorem PullImage_manifest_miss_witness :
    (getDestDir exEnv (getDestDir exEnv emptyFS (lit "a") (lit "/c")).2 (lit "a")
      exOpts.BaseDir).1 = .ok (lit "/c/61", true) ∧
    PullImage exEnv exTransfer exUnmarshal (getDestDir exEnv emptyFS (lit "a") (lit "/c")).2
        (lit "a") exOpts =
      pullTransfer exTransfer exUnmarshal (getDestDir exEnv emptyFS (lit "a") (lit "/c")).2
        (lit "a") exOpts (lit "/c/61") :=
  ⟨by decide,
   (PullImage_manifest_miss exEnv exTransfer exUnmarshal
      (getDestDir exEnv emptyFS (lit "a") (lit "/c")).2 (lit "a") exOpts (lit "/c/61")
      (by decide) rfl).1 ⟨lit "stat", lit "/c/61/manifest.json", .ENOENT⟩ (by decide)⟩

/-! ## Orchestration -/

theorem extractLayers_ok (decode : Decode) (env : Env) (pr : PullResult) (dest : GoString)
    (layers : List Layer) :
    ∀ (total : Nat) (fs : FS) (calls : List GoString), total < 2 ^ 64 →
      (∀ r ∈ layerRuns decode env pr dest fs layers, r.2.1.2 = none) →
      (extractLayers decode env pr dest layers total fs calls).err = none ∧
      (extractLayers decode env pr dest layers total fs calls).size
        = (total + ((layerRuns decode env pr dest fs layers).map (fun r => r.2.1.1)).sum)
            % 2 ^ 64 ∧
      (extractLayers decode env pr dest layers total fs calls).calls
        = calls ++ layers.map (blobPath pr) ∧
      (extractLayers decode env pr dest layers total fs calls).fs
        = (((layerRuns decode env pr dest fs layers).map (fun r => r.2.2)).getLast?).getD fs := by
  induction layers with
  | nil =>
    intro total fs calls ht _
    have hmod : total % 2 ^ 64 = total := Nat.mod_eq_of_lt ht
    simp only [extractLayers, layerRuns, List.map_nil, List.sum_nil, Nat.add_zero, hmod,
      List.append_nil, List.getLast?_nil, Option.getD_none, and_self]
  | cons l rest ih =>
    intro total fs calls ht hall
    have hl := hall (l, extract decode env fs (blobPath pr l) dest) (by simp [layerRuns])
    simp only at hl
    rcases hx : extract decode env fs (blobPath pr l) dest with ⟨⟨size, err⟩, fs1⟩
    rw [hx] at hl
    simp only at hl
    subst hl
    have hrest : ∀ r ∈ layerRuns decode env pr dest fs1 rest, r.2.1.2 = none := by
      intro r hr
      apply hall r
      simp only [layerRuns, hx, List.mem_cons]
      exact Or.inr hr
    have := ih ((total + size) % 2 ^ 64) fs1 (calls ++ [blobPath pr l])
      (Nat.mod_lt _ (by decide)) hrest
    simp only [extractLayers, hx, layerRuns, List.map_cons, List.sum_cons]
    refine ⟨this.1, ?_, ?_, ?_⟩
    · rw [this.2.1, Nat.mod_add_mod, Nat.add_assoc]
    · rw [this.2.2.1]; simp
    · rw [this.2.2.2]
      cases hlast : (List.map (fun r => r.2.2) (layerRuns decode env pr dest fs1 rest)).getLast? with
      | none =>
        have : List.map (fun r => r.2.2) (layerRuns decode env pr dest fs1 rest) = [] :=
          List.getLast?_eq_none_iff.1 hlast
        simp [this]
      | some x =>
        rw [List.getLast?_cons, hlast]
        simp

theorem extractLayers_fail (decode : Decode) (env : Env) (pr : PullResult) (dest : GoString)
    (layers : List Layer) :
    ∀ (total : Nat) (fs : FS) (calls : List GoString)
      (pre post : List (Layer × (Nat × Option GoError) × FS)) (l : Layer) (s : Nat)
      (e : GoError) (fsi : FS),
      layerRuns decode env pr dest fs layers = pre ++ (l, (s, some e), fsi) :: post →
      (∀ r ∈ pre, r.2.1.2 = none) →
      (extractLayers decode env pr dest layers total fs calls).size = 0 ∧
      (extractLayers decode env pr dest layers total fs calls).err
        = some (.leaf (lit "Extract " ++ quote (trimPrefix l.Digest SHA256Prefix)
            ++ lit ": " ++ e.Error)) ∧
      (extractLayers decode env pr dest layers total fs calls).calls
        = calls ++ pre.map (fun r => blobPath pr r.1) ++ [blobPath pr l] ∧
      (extractLayers decode env pr dest layers total fs calls).fs = fsi := by
  induction layers with
  | nil =>
    intro total fs calls pre post l s e fsi hruns _
    simp [layerRuns] at hruns
  | cons l0 rest ih =>
    intro total fs calls pre post l s e fsi hruns hpre
    rcases hx : extract decode env fs (blobPath pr l0) dest with ⟨⟨size, err⟩, fs1⟩
    simp only [layerRuns, hx] at hruns
    cases pre with
    | nil =>
      simp only [List.nil_append, List.cons.injEq, Prod.mk.injEq] at hruns
      obtain ⟨⟨hl, ⟨hs, he⟩, hfs⟩, _⟩ := hruns
      subst hl he hfs
      simp [extractLayers, hx]
    | cons r pre1 =>
      simp only [List.cons_append, List.cons.injEq] at hruns
      obtain ⟨hr, htail⟩ := hruns
      have hr2 := hpre r (by simp)
      rw [← hr] at hr2
      simp only at hr2
      subst hr2
      have := ih ((total + size) % 2 ^ 64) fs1 (calls ++ [blobPath pr l0]) pre1 post l s e fsi
        htail (fun x hx => hpre x (List.mem_cons_of_mem _ hx))
      simp only [extractLayers, hx]
      refine ⟨this.1, this.2.1, ?_, this.2.2.2⟩
      rw [this.2.2.1, ← hr]
      simp

/-- C5. `ExtractDirectory` is an in-order fold of `extract` over the layers that stops
at the first failure. When the extraction of every layer succeeds, it returns no error
and the sum of the byte counts (as a `uint64`, so modulo 2^64; 0 for no layers), has
called `extract` once per layer, in manifest order, on
`Join(pullResult.Path, TrimPrefix(digest, "sha256:"))`, and leaves the disk of the last
extraction. When layer `l` is the first whose extraction fails, with error `e`, it
returns 0 and the error `Extract "<id of l>": <e>`, has called `extract` on the layers
up to `l` and on none after it, and leaves the disk as that extraction left it. A blob
that cannot be opened makes `extract` fail with `Open src file`. -/
theorem ExtractDirectory_fold (decode : Decode) (env : Env) (fs : FS) (pr : PullResult)
    (dest : GoString) :
    ((∀ r ∈ layerRuns decode env pr dest fs pr.Manifest.Layers, r.2.1.2 = none) →
      (ExtractDirectory decode env fs pr dest).err = none ∧
      (ExtractDirectory decode env fs pr dest).size
        = ((layerRuns decode env pr dest fs pr.Manifest.Layers).map (fun r => r.2.1.1)).sum
            % 2 ^ 64 ∧
      (((layerRuns decode env pr dest fs pr.Manifest.Layers).map (fun r => r.2.1.1)).sum
          < 2 ^ 64 →
        (ExtractDirectory decode env fs pr dest).size
          = ((layerRuns decode env pr dest fs pr.Manifest.Layers).map (fun r => r.2.1.1)).sum) ∧
      (ExtractDirectory decode env fs pr dest).calls
        = pr.Manifest.Layers.map
            (fun l => Join pr.Path (trimPrefix l.Digest SHA256Prefix)) ∧
      (ExtractDirectory decode env fs pr dest).fs
        = (((layerRuns decode env pr dest fs pr.Manifest.Layers).map
            (fun r => r.2.2)).getLast?).getD fs) ∧
    (∀ (pre post : List (Layer × (Nat × Option GoError) × FS)) (l : Layer) (s : Nat)
        (e : GoError) (fsi : FS),
      layerRuns decode env pr dest fs pr.Manifest.Layers
        = pre ++ (l, (s, some e), fsi) :: post →
      (∀ r ∈ pre, r.2.1.2 = none) →
      (ExtractDirectory decode env fs pr dest).size = 0 ∧
      (ExtractDirectory decode env fs pr dest).err
        = some (.leaf (lit "Extract " ++ quote (trimPrefix l.Digest SHA256Prefix)
            ++ lit ": " ++ e.Error)) ∧
      (ExtractDirectory decode env fs pr dest).calls
        = pre.map (fun r => Join pr.Path (trimPrefix r.1.Digest SHA256Prefix))
            ++ [Join pr.Path (trimPrefix l.Digest SHA256Prefix)] ∧
      (ExtractDirectory decode env fs pr dest).fs = fsi) ∧
    (∀ (fs1 : FS) (src : GoString) (e : PathError),
      osOpen env fs1 src = .error e →
      extract decode env fs1 src dest
        = ((0, some (wrapf (lit "Open src file") e.toError)), fs1)) := by
  refine ⟨?_, ?_, ?_⟩
  · intro hall
    have h := extractLayers_ok decode env pr dest pr.Manifest.Layers 0 fs [] (by decide) hall
    simp only [Nat.zero_add, List.nil_append] at h
    unfold ExtractDirectory
    refine ⟨h.1, h.2.1, ?_, h.2.2.1, h.2.2.2⟩
    intro hlt
    rw [h.2.1, Nat.mod_eq_of_lt hlt]
  · intro pre post l s e fsi hruns hpre
    have h := extractLayers_fail decode env pr dest pr.Manifest.Layers 0 fs [] pre post l s e fsi
      hruns hpre
    simp only [List.nil_append] at h
    unfold ExtractDirectory
    exact h
  · intro fs1 src e h
    unfold extract
    rw [h]

set_option maxRecDepth 100000 in
/-- Witness for C5: of the layers `aa`, `zz`, `bb` the blob of `zz` is missing;
`extract` is called on `aa` and `zz` only and the error names `zz`. -/
theorem ExtractDirectory_fold_witness :
    (ExtractDirectory exDecode exEnv exBlobFS exPullResultMissing (lit "/d")).size = 0 ∧
    (ExtractDirectory exDecode exEnv exBlobFS exPullResultMissing (lit "/d")).err
      = some (.leaf (lit
        "Extract \"zz\": Open src file: open /c/61/zz: no such file or directory")) ∧
    (ExtractDirectory exDecode exEnv exBlobFS exPullResultMissing (lit "/d")).calls
      = [lit "/c/61/aa", lit "/c/61/zz"] := by
  have h := (ExtractDirectory_fold exDecode exEnv exBlobFS exPullResultMissing (lit "/d")).2.1
    [(⟨DockerV2Schema2LayerMediaType, 1, lit "sha256:aa"⟩,
      extract exDecode exEnv exBlobFS (lit "/c/61/aa") (lit "/d"))]
    [(⟨DockerV2Schema2LayerMediaType, 1, lit "sha256:bb"⟩,
      extract exDecode exEnv
        (extract exDecode exEnv exBlobFS (lit "/c/61/aa") (lit "/d")).2
        (lit "/c/61/bb") (lit "/d"))]
    ⟨DockerV2Schema2LayerMediaType, 1, lit "sha256:zz"⟩ 0
    (wrapf (lit "Open src file")
      (PathError.toError ⟨lit "open", lit "/c/61/zz", .ENOENT⟩))
    (extract exDecode exEnv exBlobFS (lit "/c/61/aa") (lit "/d")).2
    (by rfl)
    (by
      intro r hr
      simp only [List.mem_singleton] at hr
      subst hr
      decide)
  refine ⟨h.1, ?_, ?_⟩
  · rw [h.2.1]; decide
  · rw [h.2.2.1]; decide

/-! ## Layer extraction -/

theorem FS.lookupFrom_ok_get (fs : FS) (rest : List GoString) :
    ∀ acc n, fs.lookupFrom acc rest = .ok n → fs.get (acc ++ rest) = some n := by
  induction rest with
  | nil =>
    intro acc n h
    cases hg : fs.get acc with
    | none => simp [FS.lookupFrom, hg] at h
    | some nd =>
      simp only [FS.lookupFrom, hg, Except.ok.injEq] at h
      simp [hg, h]
  | cons c rest ih =>
    intro acc n h
    cases hg : fs.get acc with
    | none => simp [FS.lookupFrom, hg] at h
    | some nd =>
      cases nd with
      | dir =>
        simp only [FS.lookupFrom, hg] at h
        have := ih _ _ h
        simpa using this
      | file m c => simp [FS.lookupFrom, hg] at h

theorem FS.lookup_ok_get (fs : FS) (p : Path) (n : Node) (h : fs.lookup p = .ok n) :
    fs.get p = some n := by
  have := FS.lookupFrom_ok_get fs p [] n h
  simpa using this

theorem FS.mkdirAllFrom_notFile (rest : List GoString) :
    ∀ (fs fs1 : FS) (acc : Path), fs.mkdirAllFrom acc rest = .ok fs1 →
      ∀ p, NotFile fs p → NotFile fs1 p := by
  induction rest with
  | nil =>
    intro fs fs1 acc h p hp
    simp only [FS.mkdirAllFrom, Except.ok.injEq] at h
    rw [← h]; exact hp
  | cons c rest ih =>
    intro fs fs1 acc h p hp
    unfold FS.mkdirAllFrom at h
    split at h
    · apply ih _ _ _ h p
      intro m ct
      by_cases hpe : p = acc ++ [c]
      · rw [hpe, FS.get_set_same _ _ _ (by simp)]; simp
      · rw [FS.get_set_ne _ _ _ _ hpe]; exact hp m ct
    · exact ih _ _ _ h p hp
    · cases h

theorem ensureDir_mono (env : Env) (fs : FS) (path : GoString) (p : Path) (n : Node)
    (h : fs.get p = some n) : (ensureDir env fs path).2.get p = some n := by
  unfold ensureDir
  simp only
  split
  · split
    · cases hmk : osMkdirAll env fs (Dir path) with
      | error e => exact h
      | ok fs1 =>
        simp only
        unfold osMkdirAll at hmk
        split at hmk
        · next fs2 hm =>
          cases hmk
          exact FS.mkdirAllFrom_mono _ _ _ _ hm p n h
        · cases hmk
    · exact h
  · split <;> exact h

theorem ensureDir_notFile (env : Env) (fs : FS) (path : GoString) (p : Path)
    (h : NotFile fs p) : NotFile (ensureDir env fs path).2 p := by
  unfold ensureDir
  simp only
  split
  · split
    · cases hmk : osMkdirAll env fs (Dir path) with
      | error e => exact h
      | ok fs1 =>
        simp only
        unfold osMkdirAll at hmk
        split at hmk
        · next fs2 hm =>
          cases hmk
          exact FS.mkdirAllFrom_notFile _ _ _ _ hm p h
        · cases hmk
    · exact h
  · split <;> exact h

theorem osOpenFile_cases (env : Env) (fs fs2 : FS) (name : GoString) (perm : Nat) (q : Path)
    (h : osOpenFileCreateRdwr env fs name perm = .ok (q, fs2)) :
    q = resolve env name ∧ q ≠ [] ∧
    ((fs2 = fs ∧ ∃ m c, fs q = some (.file m c)) ∨ fs2 = fs.set q (.file perm [])) := by
  unfold osOpenFileCreateRdwr at h
  have hroot : fs.lookup [] = .ok .dir := by simp [FS.lookup, FS.lookupFrom, FS.get]
  split at h
  · next m c hl =>
    simp only [Except.ok.injEq, Prod.mk.injEq] at h
    obtain ⟨hq, hfs⟩ := h
    have hg := FS.lookup_ok_get fs _ _ hl
    have hne : resolve env name ≠ [] := by
      intro h0; rw [h0] at hg; simp [FS.get] at hg
    subst hq hfs
    refine ⟨rfl, hne, Or.inl ⟨rfl, m, c, ?_⟩⟩
    simpa [FS.get, hne] using hg
  · cases h
  · next hl =>
    have hne : resolve env name ≠ [] := by
      intro h0; rw [h0, hroot] at hl; cases hl
    split at h
    · simp only [Except.ok.injEq, Prod.mk.injEq] at h
      obtain ⟨hq, hfs⟩ := h
      subst hq
      exact ⟨rfl, hne, Or.inr hfs.symm⟩
    · cases h
    · cases h
  · cases h

theorem FS.write_get_ne (fs : FS) (p q : Path) (data : GoString) (h : p ≠ q) :
    (fs.write q data).get p = fs.get p := by
  unfold FS.write
  split
  · exact FS.get_set_ne _ _ _ _ h
  · rfl

theorem writeEntry_frame (env : Env) (destPath : GoString) (hdr : Header)
    (content : GoString) (readErr : Option GoError) (fs : FS) (p : Path) (n : Node)
    (hne : resolve env destPath ≠ p) (h : fs.get p = some n) :
    (writeEntry env destPath hdr content readErr fs).2.get p = some n := by
  have h1 := ensureDir_mono env fs destPath p n h
  unfold writeEntry
  rcases he : ensureDir env fs destPath with ⟨err, fs1⟩
  rw [he] at h1
  cases err with
  | some e => exact h1
  | none =>
    simp only
    cases ho : osOpenFileCreateRdwr env fs1 destPath (fileMode hdr.Mode) with
    | error e => exact h1
    | ok r =>
      obtain ⟨q, fs2⟩ := r
      obtain ⟨hq, _, hcase⟩ := osOpenFile_cases env fs1 fs2 destPath _ q ho
      have hpq : p ≠ q := by rw [hq]; exact fun hh => hne hh.symm
      have h2 : fs2.get p = some n := by
        rcases hcase with ⟨hfs, _⟩ | hfs
        · rw [hfs]; exact h1
        · rw [hfs, FS.get_set_ne _ _ _ _ hpq]; exact h1
      cases readErr <;> simp only <;> rw [FS.write_get_ne _ _ _ _ hpq] <;> exact h2

theorem writeEntry_notFile (env : Env) (destPath : GoString) (hdr : Header)
    (content : GoString) (readErr : Option GoError) (fs : FS) (p : Path)
    (hne : resolve env destPath ≠ p) (h : NotFile fs p) :
    NotFile (writeEntry env destPath hdr content readErr fs).2 p := by
  have h1 := ensureDir_notFile env fs destPath p h
  unfold writeEntry
  rcases he : ensureDir env fs destPath with ⟨err, fs1⟩
  rw [he] at h1
  cases err with
  | some e => exact h1
  | none =>
    simp only
    cases ho : osOpenFileCreateRdwr env fs1 destPath (fileMode hdr.Mode) with
    | error e => exact h1
    | ok r =>
      obtain ⟨q, fs2⟩ := r
      obtain ⟨hq, _, hcase⟩ := osOpenFile_cases env fs1 fs2 destPath _ q ho
      have hpq : p ≠ q := by rw [hq]; exact fun hh => hne hh.symm
      have h2 : NotFile fs2 p := by
        rcases hcase with ⟨hfs, _⟩ | hfs
        · rw [hfs]; exact h1
        · intro m c; rw [hfs, FS.get_set_ne _ _ _ _ hpq]; exact h1 m c
      cases readErr <;> simp only <;> intro m c <;>
        rw [FS.write_get_ne _ _ _ _ hpq] <;> exact h2 m c

theorem writeEntry_target (env : Env) (destPath : GoString) (hdr : Header)
    (content : GoString) (fs : FS)
    (h : NotFile fs (resolve env destPath))
    (hok : (writeEntry env destPath hdr content none fs).1 = none) :
    resolve env destPath ≠ [] ∧
    (writeEntry env destPath hdr content none fs).2 (resolve env destPath)
      = some (.file (fileMode hdr.Mode) content) := by
  have h1 := ensureDir_notFile env fs destPath _ h
  unfold writeEntry at hok ⊢
  rcases he : ensureDir env fs destPath with ⟨err, fs1⟩
  rw [he] at h1 hok
  cases err with
  | some e => simp at hok
  | none =>
    simp only at hok ⊢
    cases ho : osOpenFileCreateRdwr env fs1 destPath (fileMode hdr.Mode) with
    | error e => rw [ho] at hok; simp at hok
    | ok r =>
      obtain ⟨q, fs2⟩ := r
      obtain ⟨hq, hq0, hcase⟩ := osOpenFile_cases env fs1 fs2 destPath _ q ho
      subst hq
      simp only
      rcases hcase with ⟨hfs, m, c, hf⟩ | hfs
      · exfalso
        apply h1 m c
        simp [FS.get, hq0, hf]
      · rw [hfs]
        exact ⟨hq0, by simp [FS.write, FS.set]⟩

theorem extractLoop_frame (env : Env) (dest : GoString) (p : Path) (n : Node)
    (entries : List (Header × GoString)) :
    ∀ (size : Nat) (fs : FS),
      (∀ e ∈ entries, e.1.Typeflag = TypeReg → resolve env (Join dest e.1.Name) ≠ p) →
      fs.get p = some n →
      (extractLoop env dest (TarStream.ofList entries) size fs).2.get p = some n := by
  induction entries with
  | nil => intro size fs _ h; exact h
  | cons e rest ih =>
    intro size fs hne h
    obtain ⟨hdr, content⟩ := e
    have hrest : ∀ e ∈ rest, e.1.Typeflag = TypeReg →
        resolve env (Join dest e.1.Name) ≠ p := fun x hx => hne x (List.mem_cons_of_mem _ hx)
    simp only [TarStream.ofList, extractLoop]
    by_cases hreg : hdr.Typeflag = TypeReg
    · simp only [hreg, if_true]
      have hw := writeEntry_frame env (Join dest hdr.Name) hdr content none fs p n
        (hne (hdr, content) (by simp) hreg) h
      rcases hwe : writeEntry env (Join dest hdr.Name) hdr content none fs with ⟨err, fs1⟩
      rw [hwe] at hw
      cases err with
      | some e => exact hw
      | none => exact ih _ _ hrest hw
    · simp only [hreg, if_false]
      exact ih _ _ hrest h

theorem extractLoop_notFile (env : Env) (dest : GoString) (p : Path)
    (entries : List (Header × GoString)) :
    ∀ (size : Nat) (fs : FS),
      (∀ e ∈ entries, e.1.Typeflag = TypeReg → resolve env (Join dest e.1.Name) ≠ p) →
      NotFile fs p →
      NotFile (extractLoop env dest (TarStream.ofList entries) size fs).2 p := by
  induction entries with
  | nil => intro size fs _ h; exact h
  | cons e rest ih =>
    intro size fs hne h
    obtain ⟨hdr, content⟩ := e
    have hrest : ∀ e ∈ rest, e.1.Typeflag = TypeReg →
        resolve env (Join dest e.1.Name) ≠ p := fun x hx => hne x (List.mem_cons_of_mem _ hx)
    simp only [TarStream.ofList, extractLoop]
    by_cases hreg : hdr.Typeflag = TypeReg
    · simp only [hreg, if_true]
      have hw := writeEntry_notFile env (Join dest hdr.Name) hdr content none fs p
        (hne (hdr, content) (by simp) hreg) h
      rcases hwe : writeEntry env (Join dest hdr.Name) hdr content none fs with ⟨err, fs1⟩
      rw [hwe] at hw
      cases err with
      | some e => exact hw
      | none => exact ih _ _ hrest hw
    · simp only [hreg, if_false]
      exact ih _ _ hrest h

theorem extractLoop_size (env : Env) (dest : GoString) (entries : List (Header × GoString)) :
    ∀ (size : Nat) (fs : FS), size < 2 ^ 64 →
      (extractLoop env dest (TarStream.ofList entries) size fs).1.2 = none →
      (extractLoop env dest (TarStream.ofList entries) size fs).1.1
        = (size + regularBytes entries) % 2 ^ 64 := by
  induction entries with
  | nil =>
    intro size fs hs _
    simp only [TarStream.ofList, extractLoop, regularBytes, Nat.add_zero]
    exact (Nat.mod_eq_of_lt hs).symm
  | cons e rest ih =>
    intro size fs hs hok
    obtain ⟨hdr, content⟩ := e
    simp only [TarStream.ofList, extractLoop, regularBytes] at hok ⊢
    by_cases hreg : hdr.Typeflag = TypeReg
    · simp only [hreg, if_true] at hok ⊢
      rcases hwe : writeEntry env (Join dest hdr.Name) hdr content none fs with ⟨err, fs1⟩
      rw [hwe] at hok
      cases err with
      | some e => simp at hok
      | none =>
        simp only at hok ⊢
        rw [ih _ _ (Nat.mod_lt _ (by decide)) hok, Nat.mod_add_mod, Nat.add_assoc]
    · simp only [hreg, if_false, Nat.zero_add] at hok ⊢
      exact ih _ _ hs hok

theorem extractLoop_filter (env : Env) (dest : GoString) (entries : List (Header × GoString)) :
    ∀ (size : Nat) (fs : FS),
      extractLoop env dest (TarStream.ofList entries) size fs
        = extractLoop env dest
            (TarStream.ofList (entries.filter (fun e => decide (e.1.Typeflag = TypeReg))))
            size fs := by
  induction entries with
  | nil => intro size fs; rfl
  | cons e rest ih =>
    intro size fs
    obtain ⟨hdr, content⟩ := e
    by_cases hreg : hdr.Typeflag = TypeReg
    · simp only [List.filter, hreg, decide_True, TarStream.ofList, extractLoop, if_true]
      rcases writeEntry env (Join dest hdr.Name) hdr content none fs with ⟨err, fs1⟩
      cases err with
      | some e => rfl
      | none => exact ih _ _
    · simp only [List.filter, hreg, decide_False, TarStream.ofList, extractLoop, if_false]
      exact ih _ _

theorem extractLoop_target (env : Env) (dest : GoString) (hdr : Header) (content : GoString)
    (post : List (Header × GoString)) (hreg : hdr.Typeflag = TypeReg)
    (pre : List (Header × GoString)) :
    ∀ (size : Nat) (fs : FS),
      (∀ e ∈ pre ++ post, e.1.Typeflag = TypeReg →
        resolve env (Join dest e.1.Name) ≠ resolve env (Join dest hdr.Name)) →
      NotFile fs (resolve env (Join dest hdr.Name)) →
      (extractLoop env dest (TarStream.ofList (pre ++ (hdr, content) :: post)) size fs).1.2
        = none →
      (extractLoop env dest (TarStream.ofList (pre ++ (hdr, content) :: post)) size fs).2
          (resolve env (Join dest hdr.Name))
        = some (.file (fileMode hdr.Mode) content) := by
  induction pre with
  | nil =>
    intro size fs hne hnf hok
    simp only [List.nil_append, TarStream.ofList, extractLoop, hreg, if_true] at hok ⊢
    have hpost : ∀ e ∈ post, e.1.Typeflag = TypeReg →
        resolve env (Join dest e.1.Name) ≠ resolve env (Join dest hdr.Name) :=
      fun x hx => hne x (by simp [hx])
    rcases hwe : writeEntry env (Join dest hdr.Name) hdr content none fs with ⟨err, fs1⟩
    rw [hwe] at hok
    cases err with
    | some e => simp at hok
    | none =>
      simp only
      have hw := writeEntry_target env (Join dest hdr.Name) hdr content fs hnf (by rw [hwe])
      rw [hwe] at hw
      obtain ⟨hne0, hw⟩ := hw
      simp only at hw
      have hg : fs1.get (resolve env (Join dest hdr.Name))
          = some (.file (fileMode hdr.Mode) content) := by
        simpa [FS.get, hne0] using hw
      have := extractLoop_frame env dest _ _ post ((size + content.length) % 2 ^ 64) fs1 hpost hg
      simpa [FS.get, hne0] using this
  | cons e pre1 ih =>
    intro size fs hne hnf hok
    obtain ⟨h1, c1⟩ := e
    have hrest : ∀ e ∈ pre1 ++ post, e.1.Typeflag = TypeReg →
        resolve env (Join dest e.1.Name) ≠ resolve env (Join dest hdr.Name) :=
      fun x hx => hne x (by simp only [List.cons_append, List.mem_cons]; exact Or.inr hx)
    simp only [List.cons_append, TarStream.ofList, extractLoop] at hok ⊢
    by_cases hr1 : h1.Typeflag = TypeReg
    · simp only [hr1, if_true] at hok ⊢
      have hw := writeEntry_notFile env (Join dest h1.Name) h1 c1 none fs _
        (hne (h1, c1) (by simp) hr1) hnf
      rcases hwe : writeEntry env (Join dest h1.Name) h1 c1 none fs with ⟨err, fs1⟩
      rw [hwe] at hok hw
      cases err with
      | some e => simp at hok
      | none => exact ih _ _ hrest hw hok
    · simp only [hr1, if_false] at hok ⊢
      exact ih _ _ hrest hnf hok

set_option maxRecDepth 100000 in
/-- C4. Layer `aa` writes `foo` with content `hello`, the later layer `bb` writes `foo`
with content `hi`. `ExtractDirectory` extracts both without error and reports 7 bytes,
and `/d/foo` then holds `hillo`: the two bytes of the later layer followed by the rest
of the earlier content, since `OpenFile` is called with `O_CREATE|O_RDWR` and does not
truncate. -/
theorem ExtractDirectory_overlay_keeps_tail :
    (ExtractDirectory exDecode exEnv exBlobFS exPullResult (lit "/d")).err = none ∧
    (ExtractDirectory exDecode exEnv exBlobFS exPullResult (lit "/d")).size = 7 ∧
    (ExtractDirectory exDecode exEnv exBlobFS exPullResult (lit "/d")).calls
      = [lit "/c/61/aa", lit "/c/61/bb"] ∧
    resolve exEnv (Join (lit "/d") (lit "foo")) = [lit "d", lit "foo"] ∧
    (ExtractDirectory exDecode exEnv exBlobFS exPullResult (lit "/d")).fs [lit "d", lit "foo"]
      = some (.file 420 (lit "hillo")) := by
  refine ⟨by decide, by decide, by decide, by decide, by decide⟩

set_option maxRecDepth 100000 in
/-- C6, counterexample. The archive `cc` holds the regular file `foo` twice, with content
`AB` and then `CD`. Extracted into the empty directory `/d`, every operation succeeds
and 4 bytes are reported, yet `/d/foo` holds `CD`, not the content `AB` of the first
entry. -/
theorem extract_duplicate_entry_overwritten :
    exBlobFS.lookup [lit "c", lit "61", lit "cc"] = .ok (.file 420 (lit "C")) ∧
    exDecode (lit "C")
      = .ok (.ofList [(⟨lit "foo", TypeReg, 420⟩, lit "AB"),
          (⟨lit "foo", TypeReg, 420⟩, lit "CD")]) ∧
    (extract exDecode exEnv exBlobFS (lit "/c/61/cc") (lit "/d")).1 = (4, none) ∧
    resolve exEnv (Join (lit "/d") (lit "foo")) = [lit "d", lit "foo"] ∧
    (extract exDecode exEnv exBlobFS (lit "/c/61/cc") (lit "/d")).2 [lit "d", lit "foo"]
      = some (.file 420 (lit "CD")) ∧
    (extract exDecode exEnv exBlobFS (lit "/c/61/cc") (lit "/d")).2 [lit "d", lit "foo"]
      ≠ some (.file 420 (lit "AB")) := by
  refine ⟨by decide, rfl, by decide, by decide, by decide, by decide⟩

/-- C6, amended. For a blob that decodes to a well-formed archive and an extraction that
returns no error: the byte count is the sum of the content lengths of the regular-file
entries (as a `uint64`); every regular-file entry whose destination path
`Join(dest, name)` did not exist beforehand and is the destination of no other
regular-file entry of the archive holds exactly the content of that entry afterwards,
with the mode of its header; and the entries that are not regular files have no effect
at all: the result and the disk are those of the archive without them, so an archive
of such entries only returns 0 and leaves the disk as it was. -/
theorem extract_roundtrip (decode : Decode) (env : Env) (fs : FS) (src dest : GoString)
    (mode : Nat) (blob : GoString) (entries : List (Header × GoString))
    (hsrc : osOpen env fs src = .ok (.file mode blob))
    (hdec : decode blob = .ok (TarStream.ofList entries))
    (hok : (extract decode env fs src dest).1.2 = none) :
    (extract decode env fs src dest).1.1 = regularBytes entries % 2 ^ 64 ∧
    (regularBytes entries < 2 ^ 64 →
      (extract decode env fs src dest).1.1 = regularBytes entries) ∧
    (∀ (pre post : List (Header × GoString)) (hdr : Header) (content : GoString),
      entries = pre ++ (hdr, content) :: post →
      hdr.Typeflag = TypeReg →
      (∀ e ∈ pre ++ post, e.1.Typeflag = TypeReg →
        resolve env (Join dest e.1.Name) ≠ resolve env (Join dest hdr.Name)) →
      fs.get (resolve env (Join dest hdr.Name)) = none →
      (extract decode env fs src dest).2 (resolve env (Join dest hdr.Name))
        = some (.file (fileMode hdr.Mode) content)) ∧
    extract decode env fs src dest
      = extractLoop env dest
          (TarStream.ofList (entries.filter (fun e => decide (e.1.Typeflag = TypeReg)))) 0 fs ∧
    ((∀ e ∈ entries, e.1.Typeflag ≠ TypeReg) →
      extract decode env fs src dest = ((0, none), fs)) := by
  have hex : extract decode env fs src dest
      = extractLoop env dest (TarStream.ofList entries) 0 fs := by
    unfold extract
    rw [hsrc]
    simp only [hdec]
  rw [hex] at hok ⊢
  have hsize := extractLoop_size env dest entries 0 fs (by decide) hok
  simp only [Nat.zero_add] at hsize
  refine ⟨hsize, ?_, ?_, extractLoop_filter env dest entries 0 fs, ?_⟩
  · intro hlt
    rw [hsize, Nat.mod_eq_of_lt hlt]
  · intro pre post hdr content hent hreg hne hnone
    subst hent
    apply extractLoop_target env dest hdr content post hreg pre 0 fs hne _ hok
    intro m c
    rw [hnone]
    simp
  · intro hall
    rw [extractLoop_filter env dest entries 0 fs]
    have : entries.filter (fun e => decide (e.1.Typeflag = TypeReg)) = [] := by
      rw [List.filter_eq_nil_iff]
      intro e he
      simpa using hall e he
    rw [this]
    rfl

set_option maxRecDepth 100000 in
/-- Witness for C6: the archive `dd` holds a directory `bin`, the regular file `bin/sh`
with content `#!` and a symbolic link `lnk`; extracted into the empty directory `/d`
it gives 2 bytes and the file `/d/bin/sh` with that content. -/
theorem extract_roundtrip_witness :
    (extract exDecode exEnv exBlobFS (lit "/c/61/dd") (lit "/d")).1 = (2, none) ∧
    (extract exDecode exEnv exBlobFS (lit "/c/61/dd") (lit "/d")).2
        (resolve exEnv (Join (lit "/d") (lit "bin/sh")))
      = some (.file (fileMode 493) (lit "#!")) :=
  ⟨by decide,
   (extract_roundtrip exDecode exEnv exBlobFS (lit "/c/61/dd") (lit "/d") 420 (lit "D")
      [(⟨lit "bin/", 53, 493⟩, []), (⟨lit "bin/sh", TypeReg, 493⟩, lit "#!"),
        (⟨lit "lnk", 50, 511⟩, [])]
      (by decide) rfl (by decide)).2.2.1
      [(⟨lit "bin/", 53, 493⟩, [])] [(⟨lit "lnk", 50, 511⟩, [])]
      ⟨lit "bin/sh", TypeReg, 493⟩ (lit "#!") rfl rfl
      (by
        intro e he
        simp only [List.cons_append, List.nil_append, List.mem_cons, List.mem_singleton,
          List.not_mem_nil, or_false] at he
        rcases he with he | he <;> subst he <;> decide)
      (by decide)⟩

end CtrFetch
